import Mathlib

/-!
Verification of the delta-kernel core against its specification.

The development shallowly embeds the relevant Rust sources:

* `kernel/src/expressions/scalars.rs` — scalar values, decimal data,
  ordering/equality, decimal display, `parse_decimal`, `parse_scalar`;
* `kernel/src/kernel_predicates/` — the three-valued predicate evaluator
  (only its test file ships in the sources; the evaluator itself is
  modelled from the specification and validated against the tests);
* `kernel/src/transaction.rs` — `Transaction::commit` and friends;
* `kernel/src/table_changes/scan.rs` — the CDF read pipeline.

Machine integers are embedded as unbounded `Int`/`Nat` with explicit range
conditions where the source relies on bounded types.  The `Float`/`Double`
scalar variants are omitted: floating-point payloads are outside the scope
of this shallow embedding, and no theorem below depends on them.  Likewise
the chrono-based `Date`/`Timestamp` string parsers are outside scope and
those primitive types are not modelled.
-/

set_option maxRecDepth 16384

namespace DeltaKernel

/-! ## Decimal types (schema layer)

`DecimalType` lives in `kernel/src/schema.rs`, which is not among the
provided sources; its invariants are taken from the specification. -/

/-- Embeds `DecimalType`: a precision and scale, both `u8` in the source. -/
structure DecimalType where
  precision : Nat
  scale : Nat
deriving DecidableEq, Repr

/-- Modelled from the spec: `DecimalType::try_new` (in the absent
`kernel/src/schema.rs`) accepts exactly `0 ≤ s ≤ p ≤ 38` per §3:
"`decimal(bits, p, s)`: ..., `0 ≤ s ≤ p`, `p ≤ 38`". -/
def DecimalType.valid (t : DecimalType) : Prop :=
  t.scale ≤ t.precision ∧ t.precision ≤ 38

/-- Embeds `DecimalData` (scalars.rs): a raw `i128` plus its type. -/
structure DecimalData where
  bits : Int
  ty : DecimalType
deriving DecidableEq, Repr

/-! ## Data types and scalars -/

/-- Embeds `PrimitiveType` (schema layer, as used by scalars.rs).
`Float`, `Double` (floating point) and `Date`/`Timestamp`/`TimestampNtz`
(chrono-based parsing) are outside the scope of the embedding. -/
inductive PrimitiveType where
  | byte
  | short
  | integer
  | long
  | string
  | boolean
  | binary
  | decimal (dtype : DecimalType)
deriving DecidableEq, Repr

mutual

/-- Embeds `DataType`: primitive, array, map or struct. -/
inductive DataType where
  | primitive (p : PrimitiveType)
  | array (a : ArrayType)
  | map (m : MapType)
  | struct (fields : List StructField)

/-- Embeds `ArrayType`: element type plus `contains_null`. -/
inductive ArrayType where
  | mk (elementType : DataType) (containsNull : Bool)

/-- Embeds `MapType`: key/value types plus `value_contains_null`. -/
inductive MapType where
  | mk (keyType : DataType) (valueType : DataType) (valueContainsNull : Bool)

/-- Embeds `StructField`: name, data type, nullability. -/
inductive StructField where
  | mk (name : String) (dataType : DataType) (nullable : Bool)

end

mutual

/-- Embeds `Scalar` (scalars.rs).  Integer payloads are unbounded `Int`
(the source uses `i32`/`i64`/`i16`/`i8`); binary payloads are byte lists. -/
inductive Scalar where
  | integer (i : Int)
  | long (i : Int)
  | short (i : Int)
  | byte (i : Int)
  | string (s : String)
  | boolean (b : Bool)
  | binary (b : List Nat)
  | decimal (d : DecimalData)
  | null (t : DataType)
  | struct (d : StructData)
  | array (d : ArrayData)
  | map (d : MapData)

/-- Embeds `StructData`: parallel field and value lists. -/
inductive StructData where
  | mk (fields : List StructField) (values : List Scalar)

/-- Embeds `ArrayData`: element type plus elements. -/
inductive ArrayData where
  | mk (tpe : ArrayType) (elements : List Scalar)

/-- Embeds `MapData`: map type plus key/value pairs. -/
inductive MapData where
  | mk (tpe : MapType) (pairs : List (Scalar × Scalar))

end

/-- Elements of an `ArrayData`. -/
def ArrayData.elements : ArrayData → List Scalar
  | .mk _ es => es

/-- Embeds `Scalar::is_null`. -/
def Scalar.isNull : Scalar → Bool
  | .null _ => true
  | _ => false

/-- Comparison of two `Int`s as an `Ordering`, mirroring Rust's
`PartialOrd` on the primitive integer types (always `Some`). -/
def cmpInt (a b : Int) : Ordering :=
  if a < b then .lt else if b < a then .gt else .eq

/-- Comparison of two `Bool`s: `false < true`, as in Rust. -/
def cmpBool (a b : Bool) : Ordering :=
  match a, b with
  | false, false => .eq
  | false, true => .lt
  | true, false => .gt
  | true, true => .eq

/-- Lexicographic comparison of byte lists, mirroring `Vec<u8>: Ord`
(a strict prefix is smaller). -/
def cmpBytes : List Nat → List Nat → Ordering
  | [], [] => .eq
  | [], _ :: _ => .lt
  | _ :: _, [] => .gt
  | a :: as', b :: bs =>
    match cmpInt a b with
    | .eq => cmpBytes as' bs
    | o => o

/-- Lexicographic comparison of strings by code point, mirroring Rust's
`String: Ord` (UTF-8 byte order coincides with code-point order). -/
def cmpString (a b : String) : Ordering :=
  cmpBytes (a.data.map Char.toNat) (b.data.map Char.toNat)

/-- Embeds `impl PartialOrd for Scalar` (`partial_cmp`, scalars.rs lines
434-474).  The source lists two match arms per variant — one for the
same-variant pair and a catch-arm making different variants incomparable;
`Null`, `Struct`, `Array` and `Map` are incomparable to everything.
Decimals compare only when their `(precision, scale)` types agree. -/
def Scalar.tryCmp : Scalar → Scalar → Option Ordering
  | .integer a, .integer b => some (cmpInt a b)
  | .integer _, _ => none
  | .long a, .long b => some (cmpInt a b)
  | .long _, _ => none
  | .short a, .short b => some (cmpInt a b)
  | .short _, _ => none
  | .byte a, .byte b => some (cmpInt a b)
  | .byte _, _ => none
  | .string a, .string b => some (cmpString a b)
  | .string _, _ => none
  | .boolean a, .boolean b => some (cmpBool a b)
  | .boolean _, _ => none
  | .binary a, .binary b => some (cmpBytes a b)
  | .binary _, _ => none
  | .decimal a, .decimal b =>
    if a.ty = b.ty then some (cmpInt a.bits b.bits) else none
  | .decimal _, _ => none
  | .null _, _ => none
  | .struct _, _ => none
  | .array _, _ => none
  | .map _, _ => none

/-- Embeds `impl PartialEq for Scalar` (scalars.rs lines 428-432):
`self.partial_cmp(other) == Some(Ordering::Equal)`. -/
def Scalar.eqb (a b : Scalar) : Bool :=
  Scalar.tryCmp a b == some Ordering.eq

/-! ## Decimal digit machinery

Rust renders integers with the standard base-10 representation; we embed
that representation explicitly (fuel-based so that it is structurally
recursive and kernel-reducible). -/

/-- Base-10 digits of `n`, least significant first; `fuel` bounds the
recursion depth and is adequate whenever `n ≤ fuel`. -/
def natDigitsAux : Nat → Nat → List Nat
  | 0, _ => []
  | _ + 1, 0 => []
  | fuel + 1, n + 1 => ((n + 1) % 10) :: natDigitsAux fuel ((n + 1) / 10)

/-- Base-10 digits of `n`, least significant first (`[]` for `0`). -/
def natDigits (n : Nat) : List Nat :=
  natDigitsAux n n

/-- Number of base-10 digits of `n` (`0` for `0`).  Embeds
`get_decimal_precision` (scalars.rs lines 51-54):
`value.unsigned_abs().checked_ilog10().map_or(0, |p| p + 1)`. -/
def natDigitCount (n : Nat) : Nat :=
  (natDigits n).length

/-- Digit value to ASCII digit character. -/
def digitChar (d : Nat) : Char :=
  Char.ofNat (48 + d)

/-- Decimal character rendering of a natural number, most significant
digit first (`"0"` for `0`), as Rust's integer `Display` produces. -/
def natChars (n : Nat) : List Char :=
  if n = 0 then ['0'] else ((natDigits n).reverse).map digitChar

/-- Decimal character rendering of an integer, mirroring Rust's `i128`
`Display` (a leading `-` for negative values). -/
def intChars (i : Int) : List Char :=
  if i < 0 then '-' :: natChars i.natAbs else natChars i.natAbs

/-- Left-pad a character list with `'0'` up to width `w`, as the format
specifier `{:0>w$}` does. -/
def padZeros (w : Nat) (l : List Char) : List Char :=
  List.replicate (w - l.length) '0' ++ l

/-- Embeds the `Scalar::Decimal` branch of `impl Display for Scalar`
(scalars.rs lines 371-395).  For positive scale the source writes
`value / 10^scale`, a dot, then `value % 10^scale` zero-padded to the
scale's width, using Rust's truncating `i128` division/remainder.  The
`Ordering::Less` branch of the source (negative scale) is unreachable
because `scale` is a `u8`. -/
def DecimalData.displayChars (d : DecimalData) : List Char :=
  if d.ty.scale = 0 then
    intChars d.bits
  else
    intChars (d.bits.tdiv (10 ^ d.ty.scale)) ++
      '.' :: padZeros d.ty.scale (intChars (d.bits.tmod (10 ^ d.ty.scale)))

/-- String form of `DecimalData.displayChars`. -/
def DecimalData.display (d : DecimalData) : String :=
  String.mk d.displayChars

/-! ## Integer parsing (Rust `FromStr` for the built-in integer types) -/

/-- Numeric value of a most-significant-first digit character list,
accumulating from `acc` — the shape of Rust's `from_str` digit loop. -/
def foldDigits (acc : Nat) (cs : List Char) : Nat :=
  cs.foldl (fun a c => a * 10 + (c.toNat - 48)) acc

/-- Embeds Rust's `FromStr` for bounded signed integers: an optional
sign, then one or more ASCII digits, with the final value required to
lie in `[lo, hi]` (Rust reports overflow during accumulation; for a
monotone accumulation that is equivalent to the final-range check). -/
def parseIntIn (lo hi : Int) (cs : List Char) : Option Int :=
  let p : Int × List Char :=
    match cs with
    | c :: rest =>
      if c = '+' then (1, rest)
      else if c = '-' then (-1, rest)
      else (1, cs)
    | [] => (1, cs)
  if p.2 = [] then none
  else if p.2.all Char.isDigit then
    let v : Int := p.1 * (foldDigits 0 p.2 : Nat)
    if lo ≤ v ∧ v ≤ hi then some v else none
  else none

/-- Lower bound of `i128`. -/
def i128Min : Int := -(2 ^ 127)

/-- Upper bound of `i128`. -/
def i128Max : Int := 2 ^ 127 - 1

/-- Rust `str::parse::<i128>()`. -/
def parseI128 (cs : List Char) : Option Int :=
  parseIntIn i128Min i128Max cs

/-! ## Error type

Embeds the variants of `Error` (kernel error module) that the claims
touch; the remaining variants are irrelevant here. -/

/-- Embeds the relevant `Error` variants. -/
inductive KError where
  | schema (msg : String)
  | invalidDecimal (msg : String)
  | parseError (raw : String)
  | parseIntError
  | missingCommitInfo
  | invalidCommitInfo (msg : String)
  | missingColumn (name : String)
  | internalError (msg : String)
  | fileAlreadyExists (path : String)
  | generic (msg : String)
deriving DecidableEq, Repr

/-! ## Decimal parsing -/

/-- Splits a character list at the first character satisfying `p`,
dropping that character: the shape of `str::find` + `split_at` +
stripping the marker, as `parse_decimal` uses for `['e', 'E']` and
`'.'`.  Returns `none` when no character matches. -/
def splitOnceBy (p : Char → Bool) : List Char → Option (List Char × List Char)
  | [] => none
  | c :: cs =>
    if p c then some ([], cs)
    else (splitOnceBy p cs).map fun q => (c :: q.1, q.2)

/-- Is this character an exponent marker (`e` or `E`)? -/
def isExpMarker (c : Char) : Bool :=
  c == 'e' || c == 'E'

/-- Embeds `DecimalData::try_new` (scalars.rs lines 19-30): accept `bits`
exactly when the declared precision is at least its digit count
(`get_decimal_precision`). -/
def DecimalData.tryNew (bits : Int) (ty : DecimalType) : Except KError DecimalData :=
  if ty.precision ≥ natDigitCount bits.natAbs then
    .ok ⟨bits, ty⟩
  else
    .error (.invalidDecimal (String.mk (intChars bits)))

/-- Body of `parse_decimal` after the exponent has been split off and
parsed: reject an empty base, split at the first `'.'` (stripping a
trailing dot), check the effective scale, parse the concatenated parts
and build the value through `DecimalData::try_new`. -/
def parseDecimalBase (raw : String) (dtype : DecimalType)
    (base : List Char) (exp : Int) : Except KError Scalar :=
  if base = [] then .error (.parseError raw)
  else
    let q : List Char × List Char :=
      match splitOnceBy (· == '.') base with
      | none => (base, [])
      | some r => if r.2 = [] then (r.1, []) else r
    let scale : Int := (q.2.length : Int) - exp
    if 0 ≤ scale ∧ scale ≤ 255 then
      if scale = (dtype.scale : Int) then
        match parseI128 (q.1 ++ q.2) with
        | some v =>
          match DecimalData.tryNew v dtype with
          | .ok d => .ok (.decimal d)
          | .error e => .error e
        | none => .error .parseIntError
      else .error (.parseError raw)
    else .error (.parseError raw)

/-- Embeds `PrimitiveType::parse_decimal` (scalars.rs lines 649-687):
split off an optional `[eE]exponent` (parsed as `i128`, with a parse
failure propagating), then handle the base via `parseDecimalBase`:
require a non-empty base, split it at its first `'.'` (a trailing dot
is stripped), require `frac_digits - exp` to fit in a `u8` and equal
the declared scale, parse the concatenation of integer and fractional
parts as an `i128`, and build the value via `DecimalData::try_new`,
which rejects values with more base-10 digits than the declared
precision. -/
def parseDecimal (raw : String) (dtype : DecimalType) :
    Except KError Scalar :=
  match splitOnceBy isExpMarker raw.data with
  | none => parseDecimalBase raw dtype raw.data 0
  | some q =>
    match parseI128 q.2 with
    | some e => parseDecimalBase raw dtype q.1 e
    | none => .error .parseIntError

/-! ## Scalar parsing (`parse_scalar`) -/

/-- UTF-8 encoding of a single code point (what Rust's
`String::into_bytes` produces per character). -/
def charUtf8 (c : Char) : List Nat :=
  let n := c.toNat
  if n < 0x80 then [n]
  else if n < 0x800 then
    [0xC0 + n / 64, 0x80 + n % 64]
  else if n < 0x10000 then
    [0xE0 + n / 4096, 0x80 + n / 64 % 64, 0x80 + n % 64]
  else
    [0xF0 + n / 262144, 0x80 + n / 4096 % 64, 0x80 + n / 64 % 64, 0x80 + n % 64]

/-- UTF-8 bytes of a string (Rust `String::into_bytes`). -/
def utf8Bytes (s : String) : List Nat :=
  s.data.flatMap charUtf8

/-- ASCII lowercasing of one character, as used by
`str::eq_ignore_ascii_case`. -/
def asciiLower (c : Char) : Char :=
  if 'A' ≤ c && c ≤ 'Z' then Char.ofNat (c.toNat + 32) else c

/-- Embeds `str::eq_ignore_ascii_case`. -/
def eqIgnoreAsciiCase (a b : String) : Bool :=
  a.data.map asciiLower == b.data.map asciiLower

/-- Embeds `PrimitiveType::parse_str_as_scalar` specialized to a bounded
signed integer target: parse, then wrap with `f`; failure maps to the
type's parse error. -/
def parseStrAsInt (lo hi : Int) (raw : String) (f : Int → Scalar) :
    Except KError Scalar :=
  match parseIntIn lo hi raw.data with
  | some v => .ok (f v)
  | none => .error (.parseError raw)

/-- Embeds `PrimitiveType::parse_scalar` (scalars.rs lines 565-628) for
the embedded primitive types.  An empty input parses to the typed null
before any per-type dispatch; the `Float`/`Double` and chrono-based
`Date`/`Timestamp`/`TimestampNtz` branches are outside the embedding
(see the module docstring). -/
def PrimitiveType.parseScalar (t : PrimitiveType) (raw : String) :
    Except KError Scalar :=
  if raw = "" then .ok (.null (.primitive t))
  else
    match t with
    | .string => .ok (.string raw)
    | .binary => .ok (.binary (utf8Bytes raw))
    | .byte => parseStrAsInt (-128) 127 raw .byte
    | .short => parseStrAsInt (-32768) 32767 raw .short
    | .integer => parseStrAsInt (-(2 ^ 31)) (2 ^ 31 - 1) raw .integer
    | .long => parseStrAsInt (-(2 ^ 63)) (2 ^ 63 - 1) raw .long
    | .decimal dtype => parseDecimal raw dtype
    | .boolean =>
      if eqIgnoreAsciiCase raw "true" then .ok (.boolean true)
      else if eqIgnoreAsciiCase raw "false" then .ok (.boolean false)
      else .error (.parseError raw)

/-! ## Predicate evaluator

The sources ship only `kernel/src/kernel_predicates/tests.rs`; the
evaluator implementation (`kernel_predicates/mod.rs`) is absent.  The
definitions below are therefore modelled from the specification (§4.2,
§4.3 and §8 of the spec) and validated against every behaviour pinned
down by the shipped test file (see the `test vectors` section of the
theorems). -/

/-- Embeds `BinaryOperator`: arithmetic, comparisons, `Distinct`,
`In`/`NotIn`. -/
inductive BinaryOperator where
  | plus
  | minus
  | multiply
  | divide
  | lessThan
  | lessThanOrEqual
  | greaterThan
  | greaterThanOrEqual
  | equal
  | notEqual
  | distinct
  | inOp
  | notInOp
deriving DecidableEq, Repr

/-- Embeds `JunctionOperator` (`And`/`Or`). -/
inductive JunctionOperator where
  | and
  | or
deriving DecidableEq, Repr

/-- Embeds the expression/predicate AST (`Expression` in the
`expressions` module): literals, columns, `IS NULL`, `NOT`, binary
operations and `AND`/`OR` junctions.  Struct-construction expressions
are omitted (they are unsupported by the evaluator and evaluate to
unknown, like any unresolvable operand). -/
inductive Expr where
  | lit (s : Scalar)
  | col (c : String)
  | isNull (e : Expr)
  | not (e : Expr)
  | binary (op : BinaryOperator) (l r : Expr)
  | junction (op : JunctionOperator) (ps : List Expr)

/-- Modelled from the spec: the `ResolveColumnAsScalar` capability (§4.3)
returns an optional scalar per column name — `none` means the column is
absent, `some (null T)` means present-and-null. -/
def Resolver : Type :=
  String → Option Scalar

/-- Modelled from the spec:
`KernelPredicateEvaluatorDefaults::eval_scalar` — a boolean scalar
yields its (possibly inverted) value, everything else (including nulls)
is unknown. -/
def evalScalar (s : Scalar) (inverted : Bool) : Option Bool :=
  match s with
  | .boolean b => some (b != inverted)
  | _ => none

/-- Modelled from the spec:
`KernelPredicateEvaluatorDefaults::partial_cmp_scalars` — compare two
scalars by `Scalar`'s partial order and test the outcome against the
requested ordering, honouring the `inverted` flag; incomparable scalars
yield unknown. -/
def cmpScalars (ord : Ordering) (a b : Scalar) (inverted : Bool) :
    Option Bool :=
  (Scalar.tryCmp a b).map fun c => (c == ord) != inverted

/-- Modelled from the spec:
`KernelPredicateEvaluatorDefaults::eval_binary_scalars` routes the six
comparison operators through `partial_cmp_scalars` (`!=`, `<=`, `>=` are
the inverted forms of `=`, `>`, `<`); other operators are unsupported. -/
def evalBinaryScalars (op : BinaryOperator) (a b : Scalar)
    (inverted : Bool) : Option Bool :=
  match op with
  | .equal => cmpScalars .eq a b inverted
  | .notEqual => cmpScalars .eq a b (!inverted)
  | .lessThan => cmpScalars .lt a b inverted
  | .lessThanOrEqual => cmpScalars .gt a b (!inverted)
  | .greaterThan => cmpScalars .gt a b inverted
  | .greaterThanOrEqual => cmpScalars .lt a b (!inverted)
  | _ => none

/-- Loop of `finish_eval_junction`: scan the operand values for the
dominant value, tracking whether an unknown was seen. -/
def finishJunctionAux (dom : Bool) (foundNull : Bool) :
    List (Option Bool) → Option Bool
  | [] => if foundNull then none else some (!dom)
  | some v :: rest =>
    if v = dom then some dom else finishJunctionAux dom foundNull rest
  | none :: rest => finishJunctionAux dom true rest

/-- Modelled from the spec:
`KernelPredicateEvaluatorDefaults::finish_eval_junction` — `AND` is
dominated by `false` and `OR` by `true` (flipped under inversion); a
dominant operand decides the result, otherwise any unknown operand makes
the result unknown, otherwise the non-dominant value wins (which also
gives `AND [] = true` and `OR [] = false`). -/
def finishEvalJunction (op : JunctionOperator) (vals : List (Option Bool))
    (inverted : Bool) : Option Bool :=
  let dom : Bool :=
    match op with
    | .and => inverted
    | .or => !inverted
  finishJunctionAux dom false vals

/-- Modelled from the spec: operand resolution — a literal resolves to
itself, a column through the resolver, anything else is unresolvable. -/
def resolveExpr (R : Resolver) : Expr → Option Scalar
  | .lit s => some s
  | .col c => R c
  | _ => none

/-- Modelled from the spec: `IS NULL` over a resolvable operand is always
known (§4.3); an unresolvable operand is unknown. -/
def evalIsNullExpr (R : Resolver) (e : Expr) (inverted : Bool) :
    Option Bool :=
  (resolveExpr R e).map fun s => s.isNull != inverted

/-- Distinctness of two resolved scalars, following the spec formula
(§4.3): `(a IS NULL) XOR (b IS NULL) OR (both non-null AND a ≠ b)`,
where `≠` is `Scalar`'s equality (`partial_cmp == Some(Equal)`). -/
def distinctScalars (a b : Scalar) : Bool :=
  (a.isNull != b.isNull) || (!a.isNull && !b.isNull && !(Scalar.eqb a b))

/-- Modelled from the spec: `eval_distinct` — `DISTINCT` over two
resolvable operands is always known and follows `distinctScalars`;
the `inverted` flag negates the result. -/
def evalDistinct (R : Resolver) (l r : Expr) (inverted : Bool) :
    Option Bool := do
  let a ← resolveExpr R l
  let b ← resolveExpr R r
  pure (distinctScalars a b != inverted)

/-- Modelled from the spec: `eval_in` — `IN` needs a resolvable, non-null
left operand and an array-literal right operand (§4.3 "Binary routing");
membership is an `OR` of element equalities, so an equal element decides
the result and a null (or incomparable) element propagates unknown. -/
def evalIn (R : Resolver) (l r : Expr) (inverted : Bool) : Option Bool :=
  match resolveExpr R l, r with
  | some a, .lit (.array arr) =>
    if a.isNull then none
    else
      finishEvalJunction .or
        (arr.elements.map fun e => cmpScalars .eq a e false) inverted
  | _, _ => none

/-- Modelled from the spec: `eval_binary` — arithmetic operators are
unsupported in predicates (§4.3); `Distinct` and `In`/`NotIn` route to
their own evaluators (`NOT IN` is `IN` inverted); the comparisons
resolve both operands and compare the scalars. -/
def evalBinary (R : Resolver) (op : BinaryOperator) (l r : Expr)
    (inverted : Bool) : Option Bool :=
  match op with
  | .plus | .minus | .multiply | .divide => none
  | .distinct => evalDistinct R l r inverted
  | .inOp => evalIn R l r inverted
  | .notInOp => evalIn R l r (!inverted)
  | _ => do
    let a ← resolveExpr R l
    let b ← resolveExpr R r
    evalBinaryScalars op a b inverted

mutual

/-- Modelled from the spec: the standard three-valued evaluator
(`eval_expr` with its threaded `inverted` flag, §4.2/§4.3): literals via
`eval_scalar`, columns via the resolver then `eval_scalar`, `IS NULL`
always known for resolvable operands, `NOT` flips the flag, binary
operations via `eval_binary`, junctions via `finish_eval_junction` over
the operands evaluated under the same flag. -/
def evalExprInv (R : Resolver) : Expr → Bool → Option Bool
  | .lit s, inverted => evalScalar s inverted
  | .col c, inverted =>
    match R c with
    | some s => evalScalar s inverted
    | none => none
  | .isNull e, inverted => evalIsNullExpr R e inverted
  | .not e, inverted => evalExprInv R e (!inverted)
  | .binary op l r, inverted => evalBinary R op l r inverted
  | .junction op ps, inverted =>
    finishEvalJunction op (evalExprListInv R ps inverted) inverted

/-- Pointwise evaluation of junction operands. -/
def evalExprListInv (R : Resolver) : List Expr → Bool → List (Option Bool)
  | [], _ => []
  | p :: ps, inverted => evalExprInv R p inverted :: evalExprListInv R ps inverted

end

/-- Modelled from the spec: `eval` is `eval_expr` without inversion. -/
def eval (R : Resolver) (p : Expr) : Option Bool :=
  evalExprInv R p false

/-- Modelled from the spec: `eval_column` — resolve the column and treat
the scalar as a boolean. -/
def evalColumn (R : Resolver) (c : String) (inverted : Bool) : Option Bool :=
  match R c with
  | some s => evalScalar s inverted
  | none => none

/-- Modelled from the spec: `eval_junction` evaluates the operands under
the current flag and combines them with `finish_eval_junction`. -/
def evalJunction (R : Resolver) (op : JunctionOperator) (ps : List Expr)
    (inverted : Bool) : Option Bool :=
  finishEvalJunction op (evalExprListInv R ps inverted) inverted

mutual

/-- Modelled from the spec: `eval_sql_where` (§4.3), with the threaded
`inverted` flag.  It differs from the standard evaluator as follows:
junctions recurse with SQL `WHERE` semantics; a (non-`DISTINCT`) binary
comparison is wrapped in null checks of both operands, conjoined with a
plain `AND` (so a known-null operand short-circuits the comparison to
false); a bare column or literal is likewise guarded by its own null
check (so a missing column stays unknown, but a null column or null
literal reads as false — "inside `AND`, a `null` operand is treated as
`false`"); `NOT` flips the flag; `IS NULL` and `DISTINCT` keep the
standard semantics. -/
def evalSqlWhereInv (R : Resolver) : Expr → Bool → Option Bool
  | .junction op ps, inverted =>
    finishEvalJunction op (evalSqlWhereListInv R ps inverted) inverted
  | .not e, inverted => evalSqlWhereInv R e (!inverted)
  | .binary op l r, inverted =>
    if op = .distinct then evalBinary R op l r inverted
    else
      finishEvalJunction .and
        [evalIsNullExpr R l true, evalIsNullExpr R r true,
          evalBinary R op l r inverted] false
  | .col c, inverted =>
    finishEvalJunction .and
      [evalIsNullExpr R (.col c) true, evalColumn R c inverted] false
  | .lit s, inverted =>
    finishEvalJunction .and
      [evalIsNullExpr R (.lit s) true, evalScalar s inverted] false
  | .isNull e, inverted => evalExprInv R (.isNull e) inverted

/-- Pointwise SQL `WHERE` evaluation of junction operands. -/
def evalSqlWhereListInv (R : Resolver) : List Expr → Bool → List (Option Bool)
  | [], _ => []
  | p :: ps, inverted =>
    evalSqlWhereInv R p inverted :: evalSqlWhereListInv R ps inverted

end

/-- Modelled from the spec: `eval_sql_where` without inversion. -/
def evalSqlWhere (R : Resolver) (p : Expr) : Option Bool :=
  evalSqlWhereInv R p false

/-! ## Transactions (`kernel/src/transaction.rs`) -/

/-- The snapshot surface the transaction reads (§3: "the core reads only
version, schema, partition columns, table root, ...").  Only version and
table root are relevant here. -/
structure Snapshot where
  version : Nat
  tableRoot : String

/-- Embeds `SetTransaction` (an action struct): `app_id`, `version` and
an optional `last_updated` timestamp. -/
structure SetTransaction where
  appId : String
  version : Int
  lastUpdated : Option Int
deriving DecidableEq, Repr

/-- A row of engine data conforming to `add_files_schema`. -/
structure AddFileRow where
  path : String
  partitionValues : List (String × Option String)
  size : Int
  modificationTime : Int
  dataChange : Bool
deriving DecidableEq, Repr

/-- The engine-provided commit-info data: a batch with a row count and
an `engineCommitInfo` map (possibly null). -/
structure EngineCommitInfo where
  len : Nat
  engineCommitInfo : Option (List (String × Option String))
deriving DecidableEq, Repr

/-- The kernel version string baked into commit info; the source takes
it from the Cargo package metadata (`env!("CARGO_PKG_VERSION")`), which
is not part of the sources, so its value is left symbolic here. -/
def KERNEL_VERSION : String := "CARGO_PKG_VERSION"

/-- An action destined for the commit file (§6: `commitInfo`, `add`,
`txn`). -/
inductive Action where
  | commitInfo (timestamp : Int) (operation : String)
      (kernelVersion : String)
      (engineCommitInfo : Option (List (String × Option String)))
  | add (rows : List AddFileRow)
  | txn (st : SetTransaction)
deriving DecidableEq, Repr

/-- Embeds `Transaction` (transaction.rs lines 58-72). -/
structure Transaction where
  readSnapshot : Snapshot
  operation : Option String
  commitInfo : Option EngineCommitInfo
  addFilesMetadata : List (List AddFileRow)
  setTransactions : List SetTransaction
  commitTimestamp : Int

/-- Embeds `CommitResult` (transaction.rs lines 305-311): committed at a
version, or a conflict returning the transaction for retry. -/
inductive CommitResult where
  | committed (v : Nat)
  | conflict (txn : Transaction) (v : Nat)

/-- Embeds `Transaction::with_operation`. -/
def Transaction.withOperation (t : Transaction) (operation : String) :
    Transaction :=
  { t with operation := some operation }

/-- Embeds `Transaction::with_transaction_id` (transaction.rs lines
183-187): push a new `SetTransaction` carrying the transaction-wide
commit timestamp; no validation happens here. -/
def Transaction.withTransactionId (t : Transaction) (appId : String)
    (version : Int) : Transaction :=
  { t with
    setTransactions :=
      t.setTransactions ++ [⟨appId, version, some t.commitTimestamp⟩] }

/-- Embeds `Transaction::with_commit_info`. -/
def Transaction.withCommitInfo (t : Transaction) (ci : EngineCommitInfo) :
    Transaction :=
  { t with commitInfo := some ci }

/-- Embeds `Transaction::add_files`. -/
def Transaction.addFiles (t : Transaction) (batch : List AddFileRow) :
    Transaction :=
  { t with addFilesMetadata := t.addFilesMetadata ++ [batch] }

/-- The `find`-with-`HashSet` scan of `Transaction::commit` step 0: the
first element whose `app_id` was already seen. -/
def findDupAppId (seen : List String) : List String → Option String
  | [] => none
  | a :: rest =>
    if a ∈ seen then some a else findDupAppId (a :: seen) rest

/-- Embeds `generate_commit_info` (transaction.rs lines 314-384) at the
action level: reject engine commit info that does not have exactly one
row; otherwise produce the `commitInfo` action (timestamp, operation
defaulting to `"UNKNOWN"`, kernel version, engine commit info).  The
expression-evaluator plumbing that serializes the action is an external
engine capability. -/
def generateCommitInfo (operation : Option String) (timestamp : Int)
    (eci : EngineCommitInfo) : Except KError Action :=
  if eci.len ≠ 1 then
    .error (.invalidCommitInfo
      ("Engine commit info should have exactly one row, found " ++
        String.mk (natChars eci.len)))
  else
    .ok (.commitInfo timestamp (operation.getD "UNKNOWN") KERNEL_VERSION
      eci.engineCommitInfo)

/-- Embeds `generate_adds` (transaction.rs lines 245-266) at the action
level: each staged batch becomes one `add`-actions row set (the
expression evaluator that reshapes it is an external engine
capability). -/
def generateAdds (batches : List (List AddFileRow)) :
    List (Except KError Action) :=
  batches.map fun b => .ok (.add b)

/-- Modelled from the spec: `ParsedLogPath::new_commit` (in the absent
`kernel/src/path.rs`) — "the commit file path per the Format": the
`_delta_log` directory under the table root, with the version
zero-padded to twenty digits and a `.json` suffix. -/
def commitPath (tableRoot : String) (v : Nat) : String :=
  tableRoot ++ "_delta_log/" ++ String.mk (padZeros 20 (natChars v)) ++
    ".json"

/-- The JSON-writer capability
(`json_handler.write_json_file(path, actions, overwrite)`), an external
engine interface: it receives the commit path, the action iterator
(whose entries may themselves be deferred errors) and the `overwrite`
flag. -/
def JsonWriter : Type :=
  String → List (Except KError Action) → Bool → Except KError Unit

/-- The ordered action iterator of `Transaction::commit` step 1:
commit info first, then add actions, then txn actions. -/
def Transaction.commitActions (t : Transaction) (eci : EngineCommitInfo) :
    List (Except KError Action) :=
  generateCommitInfo t.operation t.commitTimestamp eci ::
    (generateAdds t.addFilesMetadata ++
      t.setTransactions.map fun st => .ok (.txn st))

/-- Embeds `Transaction::commit` (transaction.rs lines 118-169).  Step 0
rejects duplicate `app_id`s; step 1 requires commit info and assembles
the action iterator (generation errors are deferred into the iterator,
not returned here); step 2 computes `commit_version = version + 1` and
the commit path; step 3 writes with `overwrite = false` and maps the
outcome (`Ok` to `Committed`, `FileAlreadyExists` to `Conflict` carrying
the transaction, anything else propagates).  The second component
records the writer calls made (path and overwrite flag), so that
"writes nothing" is expressible. -/
def Transaction.commit (t : Transaction) (writer : JsonWriter) :
    Except KError CommitResult × List (String × Bool) :=
  match findDupAppId [] (t.setTransactions.map SetTransaction.appId) with
  | some a =>
    (.error (.generic ("app_id " ++ a ++ " already exists in transaction")),
      [])
  | none =>
    match t.commitInfo with
    | none => (.error .missingCommitInfo, [])
    | some eci =>
      let actions := t.commitActions eci
      let commitVersion := t.readSnapshot.version + 1
      let path := commitPath t.readSnapshot.tableRoot commitVersion
      match writer path actions false with
      | .ok () => (.ok (.committed commitVersion), [(path, false)])
      | .error (.fileAlreadyExists _) =>
        (.ok (.conflict t commitVersion), [(path, false)])
      | .error e => (.error e, [(path, false)])

/-! ## CDF read pipeline (`kernel/src/table_changes/scan.rs`) -/

/-- Embeds `DeletionVectorDescriptor` (§3): storage type, path/inline
payload, offset, size and cardinality.  Only its presence matters to the
claims below. -/
structure DvDescriptor where
  storageType : String
  pathOrInlineDv : String
  offset : Option Int
  sizeInBytes : Int
  cardinality : Int
deriving DecidableEq, Repr

/-- The scan-file surface `read_scan_file` uses: the file path and the
optional remove-side deletion vector whose presence marks a resolved
add/remove pair. -/
structure CdfScanFile where
  path : String
  removeDv : Option DvDescriptor
deriving DecidableEq, Repr

/-- Embeds `ResolvedCdfScanFile` (table_changes/resolve_dvs.rs): a scan
file plus its resolved optional selection vector. -/
structure ResolvedCdfScanFile where
  scanFile : CdfScanFile
  selectionVector : Option (List Bool)
deriving DecidableEq, Repr

/-- Modelled from the spec: `split_vector` (in the absent
`kernel/src/actions/deletion_vector.rs`), per §4.6: take the prefix of
length `len` of the vector as this batch's part, returning the remainder
for later batches; a vector shorter than `len` is padded (in place) with
`extend` and fully consumed; an absent vector stays absent and nothing
is split. -/
def splitVector :
    Option (List Bool) → Nat → Option Bool →
      Option (List Bool) × Option (List Bool)
  | none, _, _ => (none, none)
  | some v, len, extend =>
    if len < v.length then (some (v.take len), some (v.drop len))
    else if v.length < len then
      match extend with
      | some b => (some (v ++ List.replicate (len - v.length) b), none)
      | none => (some v, none)
    else (some v, none)

/-- The per-batch loop of `read_scan_file` (table_changes/scan.rs lines
312-353): thread the remaining selection vector through `split_vector`
for each produced batch length, emitting each batch's mask. -/
def readScanFileAux (extend : Option Bool) :
    Option (List Bool) → List Nat → List (Option (List Bool))
  | _, [] => []
  | sv, len :: rest =>
    let r := splitVector sv len extend
    r.1 :: readScanFileAux extend r.2 rest

/-- Embeds the selection-vector handling of `read_scan_file`
(table_changes/scan.rs lines 275-355): `is_dv_resolved_pair` is the
presence of `remove_dv`, the extension value is its negation, and the
masks come from threading the resolved selection vector through
`split_vector` over the successive batch lengths. -/
def readScanFileMasks (rsf : ResolvedCdfScanFile) (lens : List Nat) :
    List (Option (List Bool)) :=
  let isDvResolvedPair := rsf.scanFile.removeDv.isSome
  readScanFileAux (some (!isDvResolvedPair)) rsf.selectionVector lens

/-! ## Claim-side (specification-text) definitions

These definitions restate properties in the words of the specification
or of individual claims, to be compared against the source embeddings
above. -/

/-- A tri-state operand as a boolean (or null-boolean) literal, as the
junction test table feeds them to the evaluator. -/
def toLitExpr : Option Bool → Expr
  | some b => .lit (.boolean b)
  | none => .lit (.null (.primitive .boolean))

/-- The junction semantics in the claim's words: `AND`: `false`
dominates; all `true` (in particular an empty list) gives `true`; else
unknown.  `OR` is the dual. -/
def junctionSpec : JunctionOperator → List (Option Bool) → Option Bool
  | .and, xs =>
    if some false ∈ xs then some false
    else if xs.all (· == some true) then some true
    else none
  | .or, xs =>
    if some true ∈ xs then some true
    else if xs.all (· == some false) then some false
    else none

/-- The per-file mask sequence in the words of claim C4: each batch's
mask is the `len`-prefix of the remaining selection vector padded with
the extension bit when it runs short (after which nothing remains); with
no selection vector every mask is `none`. -/
def expectedMasks (pad : Bool) :
    Option (List Bool) → List Nat → List (Option (List Bool))
  | _, [] => []
  | none, _ :: rest => none :: expectedMasks pad none rest
  | some v, len :: rest =>
    some ((v ++ List.replicate (len - v.length) pad).take len) ::
      expectedMasks pad
        (if len < v.length then some (v.drop len) else none) rest

/-- Decomposition of a raw decimal string at its first exponent marker,
in the words of claim C9: the base and the exponent text (if any). -/
def decimalBaseExp (cs : List Char) : List Char × Option (List Char) :=
  match splitOnceBy isExpMarker cs with
  | none => (cs, none)
  | some q => (q.1, some q.2)

/-- Decomposition of a decimal base at its first `'.'`, in the words of
claim C9: integer part and fractional part (a trailing dot yields an
empty fractional part). -/
def decimalIntFrac (base : List Char) : List Char × List Char :=
  match splitOnceBy (· == '.') base with
  | none => (base, [])
  | some r => if r.2 = [] then (r.1, []) else r

/-- The success conditions of claim C9 for `parse_decimal(raw, (p, s))`:
a non-empty base; a well-formed exponent (parsing as an `i128`, `0`
when absent); an effective scale `frac_digits - exp` that fits in an
8-bit unsigned integer and equals the declared scale; and a
concatenation of integer and fractional parts parsing as an `i128`
whose digit count does not exceed the declared precision. -/
def parseDecimalOk (raw : String) (dtype : DecimalType) : Prop :=
  let be := decimalBaseExp raw.data
  ∃ exp : Int,
    (match be.2 with
     | none => exp = 0
     | some cs => parseI128 cs = some exp) ∧
    be.1 ≠ [] ∧
    (let q := decimalIntFrac be.1
     let scale : Int := (q.2.length : Int) - exp
     0 ≤ scale ∧ scale ≤ 255 ∧ scale = (dtype.scale : Int) ∧
     ∃ v : Int, parseI128 (q.1 ++ q.2) = some v ∧
       natDigitCount v.natAbs ≤ dtype.precision)

/-- The value claim C9 assigns to a successful parse: the concatenated
integer parts as the decimal's bits. -/
def parseDecimalVal (raw : String) : Option Int :=
  let be := decimalBaseExp raw.data
  let q := decimalIntFrac be.1
  parseI128 (q.1 ++ q.2)

/-- Value of a little-endian digit list (used to relate the digit
rendering to the digit parsing). -/
def valLE : List Nat → Nat
  | [] => 0
  | d :: ds => d + 10 * valLE ds

/-- Resolver returning `null` (of integer type) for every column —
`NullColumnResolver` of the test file. -/
def nullResolver : Resolver :=
  fun _ => some (.null (.primitive .integer))

/-- Resolver resolving no column — `EmptyColumnResolver`. -/
def emptyResolver : Resolver :=
  fun _ => none

/-- Resolver resolving every column to a fixed scalar, as the test
file's `impl ResolveColumnAsScalar for Scalar` does. -/
def constResolver (s : Scalar) : Resolver :=
  fun _ => some s

/-! # Theorems

First, the evaluator model is validated against the shipped test file
`kernel/src/kernel_predicates/tests.rs`; then the claims. -/

/-- The writer-outcome mapping of `Transaction::commit` step 3,
factored as a function of the writer call's return value: success
commits at the new version, `FileAlreadyExists` becomes a `Conflict`
carrying the transaction back for retry, and any other error
propagates. -/
def commitResultOfWrite (t : Transaction) (cv : Nat) :
    Except KError Unit → Except KError CommitResult
  | .ok _ => .ok (.committed cv)
  | .error (.fileAlreadyExists _) => .ok (.conflict t cv)
  | .error e => .error e

/-- A concrete transaction with commit info set but a duplicated
`app_id`, instantiating the transaction claims. -/
def txDup : Transaction :=
  ⟨⟨4, "t/"⟩, some "WRITE", some ⟨1, none⟩, [],
    [⟨"app", 1, none⟩, ⟨"app", 2, none⟩], 0⟩

/-- A concrete well-formed transaction (commit info set, distinct
`app_id`s), instantiating the transaction claims. -/
def txOk : Transaction :=
  ⟨⟨4, "t/"⟩, some "WRITE", some ⟨1, none⟩, [],
    [⟨"a", 1, none⟩, ⟨"b", 2, none⟩], 0⟩

/-- A JSON writer that always succeeds, as a concrete `JsonWriter`. -/
def alwaysOkWriter : JsonWriter := fun _ _ _ => Except.ok ()

/-! ## Test vectors from `tests.rs` (model validation) -/

example :
    [((.boolean true : Scalar), false, some true),
      (.boolean true, true, some false),
      (.boolean false, false, some false),
      (.boolean false, true, some true),
      (.long 1, false, none), (.long 1, true, none),
      (.null (.primitive .boolean), false, none),
      (.null (.primitive .boolean), true, none),
      (.null (.primitive .long), false, none),
      (.null (.primitive .long), true, none)].all
      (fun q => evalScalar q.1 q.2.1 == q.2.2) = true := by decide

example :
    [([], some true, some false),
      ([some true], some true, some true),
      ([some false], some false, some false),
      ([none], none, none),
      ([some true, some false], some false, some true),
      ([some false, some true], some false, some true),
      ([some true, none], none, some true),
      ([none, some true], none, some true),
      ([some false, none], some false, none),
      ([none, some false], some false, none),
      ([none, some false, some true], some false, some true),
      ([none, some true, some false], some false, some true),
      ([some false, none, some true], some false, some true),
      ([some true, none, some false], some false, some true),
      ([some false, some true, none], some false, some true),
      ([some true, some false, none], some false, some true)].all
      (fun q =>
        [true, false].all fun inv =>
          evalJunction emptyResolver .and (q.1.map toLitExpr) inv ==
              q.2.1.map (· != inv) &&
            evalJunction emptyResolver .or (q.1.map toLitExpr) inv ==
              q.2.2.map (· != inv)) = true := by decide

example :
    [((.boolean true : Scalar), some true), (.boolean false, some false),
      (.null (.primitive .boolean), none), (.integer 1, none)].all
      (fun q =>
        [true, false].all fun inv =>
          evalColumn (constResolver q.1) "x" inv == q.2.map (· != inv)) =
      true := by decide

example :
    [((.boolean true : Scalar), some false), (.boolean false, some true),
      (.null (.primitive .boolean), none), (.long 1, none)].all
      (fun q =>
        [true, false].all fun inv =>
          evalExprInv emptyResolver (.not (.lit q.1)) inv ==
            q.2.map (· != inv)) = true := by decide

example :
    (evalExprInv (constResolver (.integer 1)) (.isNull (.col "x")) true =
        some true) ∧
      evalExprInv (constResolver (.integer 1)) (.isNull (.col "x")) false =
        some false ∧
      evalExprInv (constResolver (.integer 1)) (.isNull (.lit (.integer 1)))
          true = some true ∧
      evalExprInv (constResolver (.integer 1)) (.isNull (.lit (.integer 1)))
          false = some false := by decide

example :
    (evalDistinct (constResolver (.integer 1)) (.col "x")
        (.lit (.integer 1)) true = some true) ∧
      evalDistinct (constResolver (.integer 1)) (.col "x")
          (.lit (.integer 1)) false = some false ∧
      evalDistinct (constResolver (.integer 1)) (.col "x")
          (.lit (.integer 2)) true = some false ∧
      evalDistinct (constResolver (.integer 1)) (.col "x")
          (.lit (.integer 2)) false = some true ∧
      evalDistinct (constResolver (.integer 1)) (.col "x")
          (.lit (.null (.primitive .integer))) true = some false ∧
      evalDistinct (constResolver (.integer 1)) (.col "x")
          (.lit (.null (.primitive .integer))) false = some true ∧
      evalDistinct nullResolver (.col "x") (.lit (.integer 1)) true =
        some false ∧
      evalDistinct nullResolver (.col "x") (.lit (.integer 1)) false =
        some true ∧
      evalDistinct nullResolver (.col "x")
          (.lit (.null (.primitive .integer))) true = some true ∧
      evalDistinct nullResolver (.col "x")
          (.lit (.null (.primitive .integer))) false = some false := by
  decide

example :
    (evalBinary (constResolver (.integer 1)) .plus (.col "x")
        (.lit (.integer 10)) false = none) ∧
      evalBinary (constResolver (.integer 1)) .minus (.col "x")
          (.lit (.integer 10)) false = none ∧
      evalBinary (constResolver (.integer 1)) .multiply (.col "x")
          (.lit (.integer 10)) false = none ∧
      evalBinary (constResolver (.integer 1)) .divide (.col "x")
          (.lit (.integer 10)) false = none := by decide

example :
    [true, false].all
      (fun inv =>
        let f := constResolver (.integer 1)
        let c : Expr := .col "x"
        let v : Expr := .lit (.integer 10)
        evalBinary f .lessThan c v inv == some (!inv) &&
          evalBinary f .lessThanOrEqual c v inv == some (!inv) &&
          evalBinary f .equal c v inv == some inv &&
          evalBinary f .notEqual c v inv == some (!inv) &&
          evalBinary f .greaterThanOrEqual c v inv == some inv &&
          evalBinary f .greaterThan c v inv == some inv &&
          evalBinary f .distinct c v inv == some (!inv) &&
          evalBinary f .lessThan v c inv == some inv &&
          evalBinary f .lessThanOrEqual v c inv == some inv &&
          evalBinary f .equal v c inv == some inv &&
          evalBinary f .notEqual v c inv == some (!inv) &&
          evalBinary f .greaterThanOrEqual v c inv == some (!inv) &&
          evalBinary f .greaterThan v c inv == some (!inv) &&
          evalBinary f .distinct v c inv == some (!inv)) = true := by
  decide

example :
    (evalSqlWhere nullResolver (.lit (.integer 1)) = none) ∧
      evalSqlWhere emptyResolver (.lit (.integer 1)) = none ∧
      evalSqlWhere nullResolver (.col "x") = some false ∧
      evalSqlWhere emptyResolver (.col "x") = none ∧
      evalSqlWhere nullResolver (.isNull (.col "x")) = some true ∧
      evalSqlWhere nullResolver (.not (.col "x")) = some false ∧
      evalSqlWhere emptyResolver (.not (.col "x")) = none := by decide

example :
    (evalSqlWhere nullResolver
        (.binary .lessThan (.lit (.boolean false)) (.lit (.boolean true))) =
        some true) ∧
      evalSqlWhere emptyResolver
          (.binary .lessThan (.lit (.boolean false))
            (.lit (.boolean true))) = some true ∧
      eval nullResolver (.binary .lessThan (.col "x") (.lit (.integer 1))) =
        none ∧
      evalSqlWhere nullResolver
          (.binary .lessThan (.col "x") (.lit (.integer 1))) = some false ∧
      evalSqlWhere emptyResolver
          (.binary .lessThan (.col "x") (.lit (.integer 1))) = none ∧
      eval nullResolver (.binary .lessThan (.lit (.integer 1)) (.col "x")) =
        none ∧
      evalSqlWhere nullResolver
          (.binary .lessThan (.lit (.integer 1)) (.col "x")) = some false ∧
      evalSqlWhere emptyResolver
          (.binary .lessThan (.lit (.integer 1)) (.col "x")) = none := by
  decide

example :
    (eval nullResolver (.binary .distinct (.lit (.integer 1)) (.col "x")) =
        some true) ∧
      evalSqlWhere nullResolver
          (.binary .distinct (.lit (.integer 1)) (.col "x")) = some true ∧
      evalSqlWhere emptyResolver
          (.binary .distinct (.lit (.integer 1)) (.col "x")) = none ∧
      eval nullResolver
          (.binary .distinct (.lit (.null (.primitive .boolean)))
            (.col "x")) = some false ∧
      evalSqlWhere nullResolver
          (.binary .distinct (.lit (.null (.primitive .boolean)))
            (.col "x")) = some false ∧
      evalSqlWhere emptyResolver
          (.binary .distinct (.lit (.null (.primitive .boolean)))
            (.col "x")) = none := by decide

example :
    (eval nullResolver
        (.junction .and [.lit (.boolean true),
          .binary .lessThan (.col "x") (.lit (.integer 1))]) = none) ∧
      evalSqlWhere nullResolver
          (.junction .and [.lit (.boolean true),
            .binary .lessThan (.col "x") (.lit (.integer 1))]) =
        some false ∧
      evalSqlWhere emptyResolver
          (.junction .and [.lit (.boolean true),
            .binary .lessThan (.col "x") (.lit (.integer 1))]) = none ∧
      eval nullResolver
          (.junction .and [.lit (.null (.primitive .boolean)),
            .binary .lessThan (.col "x") (.lit (.integer 1))]) = none ∧
      evalSqlWhere nullResolver
          (.junction .and [.lit (.null (.primitive .boolean)),
            .binary .lessThan (.col "x") (.lit (.integer 1))]) =
        some false ∧
      evalSqlWhere emptyResolver
          (.junction .and [.lit (.null (.primitive .boolean)),
            .binary .lessThan (.col "x") (.lit (.integer 1))]) =
        some false := by decide

example :
    (eval nullResolver
        (.junction .or [.lit (.boolean false),
          .junction .and [.lit (.boolean true),
            .binary .lessThan (.col "x") (.lit (.integer 1))]]) = none) ∧
      evalSqlWhere nullResolver
          (.junction .or [.lit (.boolean false),
            .junction .and [.lit (.boolean true),
              .binary .lessThan (.col "x") (.lit (.integer 1))]]) =
        some false ∧
      evalSqlWhere emptyResolver
          (.junction .or [.lit (.boolean false),
            .junction .and [.lit (.boolean true),
              .binary .lessThan (.col "x") (.lit (.integer 1))]]) =
        none := by decide

/-! Decimal test vectors from `scalars.rs` (`test_decimal_display`,
`test_parse_decimal`, `test_parse_decimal_expect_fail`,
`test_bad_decimal`). -/

example :
    (DecimalData.display ⟨123456789, ⟨9, 2⟩⟩ = "1234567.89") ∧
      DecimalData.display ⟨123456789, ⟨9, 0⟩⟩ = "123456789" ∧
      DecimalData.display ⟨123456789, ⟨9, 9⟩⟩ = "0.123456789" := by decide

example :
    [("0.999", 3, 3, (999 : Int)), ("0", 1, 0, 0), ("0.00", 3, 2, 0),
      ("123", 3, 0, 123), ("-123", 3, 0, -123), ("-123.", 3, 0, -123),
      ("123000", 6, 0, 123000), ("12.0", 3, 1, 120), ("12.3", 3, 1, 123),
      ("0.00123", 5, 5, 123), ("1234.5E-4", 5, 5, 12345), ("-0", 1, 0, 0),
      ("12.000000000000000000", 38, 18, 12000000000000000000)].all
      (fun q =>
        match parseDecimal q.1 ⟨q.2.1, q.2.2.1⟩ with
        | .ok (.decimal d) => d.bits == q.2.2.2 && d.ty == ⟨q.2.1, q.2.2.1⟩
        | _ => false) = true := by decide

example :
    [("1.000", 3, 3), ("iowjef", 1, 0), ("123Ef", 1, 0), ("1d2E3", 1, 0),
      ("a", 1, 0), ("2.a", 1, 1), ("E45", 1, 0), ("1.2.3", 1, 0),
      ("1.2E1.3", 1, 0), ("123.45", 5, 1), (".45", 5, 1), ("+", 1, 0),
      ("-", 1, 0), ("0.-0", 2, 1), ("--1.0", 1, 1), ("+-1.0", 1, 1),
      ("-+1.0", 1, 1), ("++1.0", 1, 1), ("1.0E1+", 1, 1),
      ("0.12345", 3, 0), ("12345", 3, 0)].all
      (fun q => !(parseDecimal q.1 ⟨q.2.1, q.2.2⟩).isOk) = true := by
  decide

example :
    (parseDecimal
        "0.E170141183460469231731687303715884105727" ⟨1, 0⟩).isOk =
      false := by decide

example : (DecimalData.tryNew 123456789 ⟨3, 0⟩).isOk = false := by decide

/-! Ordering and equality vectors from `test_partial_cmp` and
`test_partial_eq`. -/

example :
    (Scalar.tryCmp (.integer 1) (.integer 2) = some .lt) ∧
      Scalar.tryCmp (.integer 2) (.integer 1) = some .gt ∧
      Scalar.tryCmp (.integer 1) (.integer 1) = some .eq ∧
      Scalar.tryCmp (.integer 1) (.null (.primitive .integer)) = none ∧
      Scalar.tryCmp (.null (.primitive .integer)) (.integer 1) = none := by
  decide

example :
    (Scalar.eqb (.integer 1) (.integer 2) = false) ∧
      Scalar.eqb (.integer 1) (.integer 1) = true ∧
      Scalar.eqb (.integer 1) (.null (.primitive .integer)) = false ∧
      Scalar.eqb (.null (.primitive .integer)) (.integer 1) = false := by
  decide

/-! ## Claim C8 — null scalars are incomparable, equality not reflexive -/

/-- Claim C8: for every `DataType` `T` and every `Scalar` `s` (including
`Null(T)` itself), `Scalar::Null(T).partial_cmp(s)` returns `None`; and
since `Scalar` equality is `partial_cmp(..) == Some(Equal)`,
`Null(T) == Null(T)` evaluates to `false` — null equality is not
reflexive. -/
theorem claim_c8 (T : DataType) (s : Scalar) :
    Scalar.tryCmp (.null T) s = none ∧
      Scalar.eqb (.null T) (.null T) = false := by
  constructor
  · cases s <;> rfl
  · rfl

/-! ## Claim C10 — the empty string parses to a typed null -/

/-- Claim C10: for every primitive type `T`,
`PrimitiveType::parse_scalar("")` returns `Ok(Scalar::Null(T))` — never
a parse error and never a non-null value. -/
theorem claim_c10 (t : PrimitiveType) :
    t.parseScalar "" = .ok (.null (.primitive t)) := by
  rfl

/-! ## Claim C7 — DISTINCT is total on resolvable operands -/

/-- Claim C7: for all resolvable operands `a` and `b` (a literal, or a
column the resolver can resolve — possibly to null), evaluating
`DISTINCT(a, b)` is always known, and equals
`(a IS NULL) XOR (b IS NULL) OR (both non-null AND a ≠ b)` (with `≠`
being `Scalar`'s equality). -/
theorem claim_c7 (R : Resolver) (a b : Expr) (sa sb : Scalar)
    (ha : resolveExpr R a = some sa) (hb : resolveExpr R b = some sb) :
    eval R (.binary .distinct a b) =
      some ((sa.isNull != sb.isNull) ||
        (!sa.isNull && !sb.isNull && !(Scalar.eqb sa sb))) := by
  simp [eval, evalExprInv, evalBinary, evalDistinct, ha, hb,
    distinctScalars]

/-- Concrete instance of claim C7: with `x` resolving to the integer
`1`, `DISTINCT(x, 2)` evaluates to `some true`. -/
theorem claim_c7_witness :
    eval (constResolver (.integer 1))
        (.binary .distinct (.col "x") (.lit (.integer 2))) = some true :=
  claim_c7 (constResolver (.integer 1)) (.col "x") (.lit (.integer 2))
    (.integer 1) (.integer 2) rfl rfl

/-! ## Claim C6 — junction (`AND`/`OR`) semantics -/

/-- Characterization of the `finish_eval_junction` loop: the dominant
value wins if present; otherwise a tracked or encountered unknown gives
unknown; otherwise the non-dominant value. -/
theorem finishJunctionAux_eq (dom : Bool) (xs : List (Option Bool)) :
    ∀ found : Bool,
      finishJunctionAux dom found xs =
        if some dom ∈ xs then some dom
        else if found = true ∨ none ∈ xs then none
        else some (!dom) := by
  induction xs with
  | nil => intro found; cases found <;> simp [finishJunctionAux]
  | cons x rest ih =>
    intro found
    match x with
    | some v =>
      by_cases hv : v = dom
      · subst hv; simp [finishJunctionAux]
      · have hstep :
            finishJunctionAux dom found (some v :: rest) =
              finishJunctionAux dom found rest := by
          simp [finishJunctionAux, hv]
        rw [hstep, ih found]
        simp [List.mem_cons, Ne.symm hv]
    | none =>
      have hstep :
          finishJunctionAux dom found (none :: rest) =
            finishJunctionAux dom true rest := by
        simp [finishJunctionAux]
      rw [hstep, ih true]
      simp [List.mem_cons]

/-- Junction operands that are neither `some b` nor `none` are all
`some !b`. -/
theorem all_some_not_of_not_mem (b : Bool) (xs : List (Option Bool))
    (hb : some b ∉ xs) (hn : none ∉ xs) :
    xs.all (· == some (!b)) = true := by
  induction xs with
  | nil => rfl
  | cons x rest ih =>
    simp only [List.mem_cons, not_or] at hb hn
    have hrest := ih hb.2 hn.2
    match x with
    | some v =>
      have hvb : v ≠ b := fun h => hb.1 (by rw [h])
      have : v = !b := by cases v <;> cases b <;> simp_all
      simp [List.all_cons, this, hrest]
    | none => exact absurd rfl hn.1

/-- Evaluating the literal form of a tri-state operand list yields the
operands with the inversion applied pointwise. -/
theorem evalExprListInv_toLitExpr (R : Resolver) (inv : Bool) :
    ∀ xs : List (Option Bool),
      evalExprListInv R (xs.map toLitExpr) inv =
        xs.map fun x => x.map (· != inv) := by
  intro xs
  induction xs with
  | nil => rfl
  | cons x rest ih =>
    match x with
    | some b => simp [toLitExpr, evalExprListInv, evalExprInv, evalScalar, ih]
    | none => simp [toLitExpr, evalExprListInv, evalExprInv, evalScalar, ih]

/-- Membership transfer through the pointwise inversion. -/
theorem mem_map_bne (xs : List (Option Bool)) (inv b : Bool) :
    (some b ∈ xs.map fun x => x.map (· != inv)) ↔ some (b != inv) ∈ xs := by
  simp only [List.mem_map]
  constructor
  · rintro ⟨x, hx, hmap⟩
    match x with
    | some v =>
      simp only [Option.map_some', Option.some.injEq] at hmap
      have : v = (b != inv) := by
        cases v <;> cases b <;> cases inv <;> simp_all
      exact this ▸ hx
    | none => simp at hmap
  · intro h
    exact ⟨some (b != inv), h, by cases b <;> cases inv <;> simp⟩

/-- Unknown-membership transfer through the pointwise inversion. -/
theorem none_mem_map_bne (xs : List (Option Bool)) (inv : Bool) :
    (none ∈ xs.map fun x => x.map (· != inv)) ↔ none ∈ xs := by
  simp only [List.mem_map]
  constructor
  · rintro ⟨x, hx, hmap⟩
    match x with
    | some v => simp at hmap
    | none => exact hx
  · intro h
    exact ⟨none, h, rfl⟩

/-- Claim C6: for every list of tri-state operands, `eval_junction` with
`AND` returns `some false` if any operand is `some false`, `some true`
if all operands are `some true` (hence `some true` for the empty list),
and unknown otherwise; `OR` is the dual; and the `inverted` flag negates
the known results.  The operands enter the evaluator as boolean (or
null) literals, as in the shipped junction test. -/
theorem claim_c6 (R : Resolver) (op : JunctionOperator)
    (xs : List (Option Bool)) (inv : Bool) :
    evalJunction R op (xs.map toLitExpr) inv =
      (junctionSpec op xs).map (· != inv) := by
  have hlist := evalExprListInv_toLitExpr R inv xs
  have hnone := none_mem_map_bne xs inv
  cases op with
  | and =>
    have hmem : (some inv ∈ xs.map fun x => x.map (· != inv)) ↔
        some false ∈ xs := by
      rw [mem_map_bne xs inv inv, bne_self_eq_false]
    simp only [evalJunction, finishEvalJunction, hlist,
      finishJunctionAux_eq, junctionSpec]
    by_cases hf : some false ∈ xs
    · rw [if_pos (hmem.mpr hf), if_pos hf]
      cases inv <;> rfl
    · have hm' : ¬ (some inv ∈ xs.map fun x => x.map (· != inv)) :=
        fun h => hf (hmem.mp h)
      by_cases hn : none ∈ xs
      · have hnall : ¬ xs.all (· == some true) = true := by
          intro hall
          rw [List.all_eq_true] at hall
          have := hall none hn
          simp at this
        simp [hm', hnone.mpr hn, hf, hnall]
      · have hall := all_some_not_of_not_mem false xs hf hn
        have hn' : ¬ (none ∈ xs.map fun x => x.map (· != inv)) :=
          fun h => hn (hnone.mp h)
        simp only [Bool.not_false] at hall
        simp [hm', hn', hf, hall]
  | or =>
    have hmem : (some (!inv) ∈ xs.map fun x => x.map (· != inv)) ↔
        some true ∈ xs := by
      rw [mem_map_bne xs inv (!inv)]
      cases inv <;> rfl
    simp only [evalJunction, finishEvalJunction, hlist,
      finishJunctionAux_eq, junctionSpec]
    by_cases ht : some true ∈ xs
    · rw [if_pos (hmem.mpr ht), if_pos ht]
      cases inv <;> rfl
    · have hm' : ¬ (some (!inv) ∈ xs.map fun x => x.map (· != inv)) :=
        fun h => ht (hmem.mp h)
      by_cases hn : none ∈ xs
      · have hnall : ¬ xs.all (· == some false) = true := by
          intro hall
          rw [List.all_eq_true] at hall
          have := hall none hn
          simp at this
        simp [hm', hnone.mpr hn, ht, hnall]
      · have hall := all_some_not_of_not_mem true xs ht hn
        have hn' : ¬ (none ∈ xs.map fun x => x.map (· != inv)) :=
          fun h => hn (hnone.mp h)
        simp only [Bool.not_true] at hall
        simp [hm', hn', ht, hall]

/-! ## Claim C1 — SQL `WHERE` refinement

The refinement is proved in two generalized halves over the threaded
`inverted` flag: agreement (wherever the standard evaluator is known,
the SQL `WHERE` evaluator agrees) and safety (wherever the SQL `WHERE`
evaluator is known, the standard evaluator is either equal or
unknown). -/

/-- Comparable scalars are non-null (`partial_cmp` sends `Null` — on
either side — to `None`). -/
theorem tryCmp_nonnull (a b : Scalar) (c : Ordering)
    (h : Scalar.tryCmp a b = some c) :
    a.isNull = false ∧ b.isNull = false := by
  cases a <;> cases b <;> simp_all [Scalar.tryCmp, Scalar.isNull]

/-- The evaluator's junction-operand list is the pointwise map. -/
theorem evalExprListInv_eq_map (R : Resolver) (inv : Bool) :
    ∀ ps : List Expr,
      evalExprListInv R ps inv = ps.map fun q => evalExprInv R q inv := by
  intro ps
  induction ps with
  | nil => rfl
  | cons q rest ih => simp [evalExprListInv, ih]

/-- The SQL `WHERE` junction-operand list is the pointwise map. -/
theorem evalSqlWhereListInv_eq_map (R : Resolver) (inv : Bool) :
    ∀ ps : List Expr,
      evalSqlWhereListInv R ps inv =
        ps.map fun q => evalSqlWhereInv R q inv := by
  intro ps
  induction ps with
  | nil => rfl
  | cons q rest ih => simp [evalSqlWhereListInv, ih]

/-- A list whose members avoid `some dom` and `none` is constantly
`some !dom` (propositional form). -/
theorem eq_some_not_of_not_mem (dom : Bool) (v : List (Option Bool))
    (hd : some dom ∉ v) (hn : none ∉ v) :
    ∀ x ∈ v, x = some (!dom) := by
  intro x hx
  match x with
  | some b =>
    have : b ≠ dom := fun h => hd (h ▸ hx)
    cases b <;> cases dom <;> simp_all
  | none => exact absurd hx hn

/-- A `Forall₂` relation pairs every left member with some right
member. -/
theorem forall2_mem_left {r : Option Bool → Option Bool → Prop}
    {v1 v2 : List (Option Bool)} (h : List.Forall₂ r v1 v2) :
    ∀ {x}, x ∈ v1 → ∃ y, y ∈ v2 ∧ r x y := by
  intro x hx
  induction h with
  | nil => cases hx
  | cons hr _ ih =>
    rcases List.mem_cons.mp hx with rfl | hx'
    · exact ⟨_, List.mem_cons_self _ _, hr⟩
    · obtain ⟨y, hy, hr'⟩ := ih hx'
      exact ⟨y, List.mem_cons_of_mem _ hy, hr'⟩

/-- A `Forall₂` relation pairs every right member with some left
member. -/
theorem forall2_mem_right {r : Option Bool → Option Bool → Prop}
    {v1 v2 : List (Option Bool)} (h : List.Forall₂ r v1 v2) :
    ∀ {y}, y ∈ v2 → ∃ x, x ∈ v1 ∧ r x y := by
  intro y hy
  induction h with
  | nil => cases hy
  | cons hr _ ih =>
    rcases List.mem_cons.mp hy with rfl | hy'
    · exact ⟨_, List.mem_cons_self _ _, hr⟩
    · obtain ⟨x, hx, hr'⟩ := ih hy'
      exact ⟨x, List.mem_cons_of_mem _ hx, hr'⟩

/-- Agreement transfer across a junction: if each operand's second
evaluation agrees with its first wherever the first is known, the
combined junction result does too. -/
theorem finish_transfer_agree (dom : Bool) (v1 v2 : List (Option Bool))
    (h : List.Forall₂ (fun x y => ∀ b, x = some b → y = some b) v1 v2) :
    ∀ b, finishJunctionAux dom false v1 = some b →
      finishJunctionAux dom false v2 = some b := by
  intro b hb
  rw [finishJunctionAux_eq] at hb
  rw [finishJunctionAux_eq]
  by_cases h1 : some dom ∈ v1
  · rw [if_pos h1] at hb
    have hbd : dom = b := Option.some.inj hb
    obtain ⟨y, hy, hrel⟩ := forall2_mem_left h h1
    have hy' : y = some dom := hrel dom rfl
    have h2 : some dom ∈ v2 := by rw [← hy']; exact hy
    rw [if_pos h2, hbd]
  · rw [if_neg h1] at hb
    by_cases hn : none ∈ v1
    · rw [if_pos (Or.inr hn)] at hb
      exact absurd hb (by simp)
    · rw [if_neg (by simp [hn])] at hb
      have hbd : (!dom) = b := Option.some.inj hb
      have hall := eq_some_not_of_not_mem dom v1 h1 hn
      have hall2 : ∀ y ∈ v2, y = some (!dom) := fun y hy => by
        obtain ⟨x, hx, hrel⟩ := forall2_mem_right h hy
        exact hrel (!dom) (hall x hx)
      have h2d : some dom ∉ v2 := by
        intro hm
        have h' : some dom = some (!dom) := hall2 _ hm
        have hdd : dom = !dom := Option.some.inj h'
        cases dom <;> exact absurd hdd (by decide)
      have h2n : none ∉ v2 := by
        intro hm
        exact Option.noConfusion (hall2 _ hm)
      rw [if_neg h2d, if_neg (by simp [h2n]), hbd]

/-- Safety transfer across a junction: if each operand's first
evaluation is equal-or-unknown wherever the second is known, the
combined junction result is too. -/
theorem finish_transfer_safe (dom : Bool) (v1 v2 : List (Option Bool))
    (h : List.Forall₂
      (fun x y => ∀ b, y = some b → x = some b ∨ x = none) v1 v2) :
    ∀ b, finishJunctionAux dom false v2 = some b →
      finishJunctionAux dom false v1 = some b ∨
        finishJunctionAux dom false v1 = none := by
  intro b hb
  rw [finishJunctionAux_eq] at hb
  rw [finishJunctionAux_eq]
  by_cases h2 : some dom ∈ v2
  · rw [if_pos h2] at hb
    have hbd : dom = b := Option.some.inj hb
    obtain ⟨x, hx, hrel⟩ := forall2_mem_right h h2
    by_cases h1 : some dom ∈ v1
    · left; rw [if_pos h1, hbd]
    · rcases hrel dom rfl with hxd | hxn
      · exact absurd (hxd ▸ hx) h1
      · have hn1 : none ∈ v1 := by rw [← hxn]; exact hx
        right
        rw [if_neg h1, if_pos (Or.inr hn1)]
  · rw [if_neg h2] at hb
    by_cases hn2 : none ∈ v2
    · rw [if_pos (Or.inr hn2)] at hb
      exact absurd hb (by simp)
    · rw [if_neg (by simp [hn2])] at hb
      have hbd : (!dom) = b := Option.some.inj hb
      have hall2 := eq_some_not_of_not_mem dom v2 h2 hn2
      have hall1 : ∀ x ∈ v1, x = some (!dom) ∨ x = none := fun x hx => by
        obtain ⟨y, hy, hrel⟩ := forall2_mem_left h hx
        exact hrel (!dom) (hall2 y hy)
      have h1d : some dom ∉ v1 := by
        intro hm
        rcases hall1 _ hm with h' | h'
        · have hdd : dom = !dom := Option.some.inj h'
          cases dom <;> exact absurd hdd (by decide)
        · exact Option.noConfusion h'
      by_cases hn1 : none ∈ v1
      · right; rw [if_neg h1d, if_pos (Or.inr hn1)]
      · left; rw [if_neg h1d, if_neg (by simp [hn1]), hbd]

/-- Pointwise properties lift to `Forall₂` over two maps of the same
list. -/
theorem forall2_map_of_forall {α : Type} (r : Option Bool → Option Bool → Prop)
    (f g : α → Option Bool) :
    ∀ ps : List α, (∀ q ∈ ps, r (f q) (g q)) →
      List.Forall₂ r (ps.map f) (ps.map g) := by
  intro ps h
  induction ps with
  | nil => exact List.Forall₂.nil
  | cons q rest ih =>
    exact List.Forall₂.cons (h q (List.mem_cons_self _ _))
      (ih fun x hx => h x (List.mem_cons_of_mem _ hx))

/-- A known boolean result of `eval_scalar` forces a non-null scalar. -/
theorem evalScalar_isNull (s : Scalar) (inv b : Bool)
    (h : evalScalar s inv = some b) : s.isNull = false := by
  cases s <;> simp_all [evalScalar, Scalar.isNull]

/-- A null scalar has the `Null` shape. -/
theorem isNull_shape (s : Scalar) (h : s.isNull = true) :
    ∃ t, s = .null t := by
  cases s <;> simp_all [Scalar.isNull]

/-- `partial_cmp` with a null left operand is `None`. -/
theorem tryCmp_null_left (t : DataType) (b : Scalar) :
    Scalar.tryCmp (.null t) b = none := by
  cases b <;> rfl

/-- `partial_cmp` with a null right operand is `None`. -/
theorem tryCmp_null_right (a : Scalar) (t : DataType) :
    Scalar.tryCmp a (.null t) = none := by
  cases a <;> rfl

/-- A known comparison result forces both scalars non-null. -/
theorem cmpScalars_some_nonnull (ord : Ordering) (a b : Scalar)
    (inv bb : Bool) (h : cmpScalars ord a b inv = some bb) :
    a.isNull = false ∧ b.isNull = false := by
  unfold cmpScalars at h
  cases htc : Scalar.tryCmp a b with
  | none => rw [htc] at h; simp at h
  | some c => exact tryCmp_nonnull a b c htc

/-- Inversion of a two-step `Option` bind yielding a value. -/
theorem bind_bind_some {α β : Type} {x : Option α} {y : Option β}
    {f : α → β → Option Bool} {b : Bool}
    (h : (x.bind fun a => y.bind fun c => f a c) = some b) :
    ∃ a c, x = some a ∧ y = some c ∧ f a c = some b := by
  cases x with
  | none => simp at h
  | some a =>
    cases y with
    | none => simp at h
    | some c => exact ⟨a, c, rfl, rfl, by simpa using h⟩

/-- Inversion of a known `IN` evaluation: the left operand resolves to
a non-null scalar and the right operand is an array literal. -/
theorem evalIn_some (R : Resolver) (l r : Expr) (inv b : Bool)
    (h : evalIn R l r inv = some b) :
    ∃ sa arr, resolveExpr R l = some sa ∧ r = .lit (.array arr) ∧
      sa.isNull = false := by
  cases hl : resolveExpr R l with
  | none =>
    exfalso
    cases r <;> simp [evalIn, hl] at h
  | some sa =>
    cases r with
    | lit s =>
      cases s with
      | array arr =>
        by_cases hnull : sa.isNull = true
        · simp [evalIn, hl, hnull] at h
        · exact ⟨sa, arr, rfl, rfl, by simpa using hnull⟩
      | integer i => simp [evalIn, hl] at h
      | long i => simp [evalIn, hl] at h
      | short i => simp [evalIn, hl] at h
      | byte i => simp [evalIn, hl] at h
      | string s => simp [evalIn, hl] at h
      | boolean bb => simp [evalIn, hl] at h
      | binary bs => simp [evalIn, hl] at h
      | decimal d => simp [evalIn, hl] at h
      | null t => simp [evalIn, hl] at h
      | struct d => simp [evalIn, hl] at h
      | map d => simp [evalIn, hl] at h
    | col c => simp [evalIn, hl] at h
    | isNull e => simp [evalIn, hl] at h
    | not e => simp [evalIn, hl] at h
    | binary op' l' r' => simp [evalIn, hl] at h
    | junction op' ps => simp [evalIn, hl] at h

/-- A known result of a non-`DISTINCT` binary operation forces both
operands to resolve to non-null scalars. -/
theorem evalBinary_some_nonnull (R : Resolver) (op : BinaryOperator)
    (l r : Expr) (inv b : Bool) (hop : op ≠ .distinct)
    (h : evalBinary R op l r inv = some b) :
    ∃ sa sb, resolveExpr R l = some sa ∧ resolveExpr R r = some sb ∧
      sa.isNull = false ∧ sb.isNull = false := by
  cases op with
  | plus => simp [evalBinary] at h
  | minus => simp [evalBinary] at h
  | multiply => simp [evalBinary] at h
  | divide => simp [evalBinary] at h
  | distinct => exact absurd rfl hop
  | inOp =>
    obtain ⟨sa, arr, hl, hr, hnn⟩ := evalIn_some R l r inv b h
    exact ⟨sa, .array arr, hl, by rw [hr]; rfl, hnn, by simp [Scalar.isNull]⟩
  | notInOp =>
    obtain ⟨sa, arr, hl, hr, hnn⟩ := evalIn_some R l r (!inv) b h
    exact ⟨sa, .array arr, hl, by rw [hr]; rfl, hnn, by simp [Scalar.isNull]⟩
  | lessThan =>
    obtain ⟨sa, sb, hl, hr, hf⟩ := bind_bind_some h
    obtain ⟨h1, h2⟩ := cmpScalars_some_nonnull .lt sa sb inv b hf
    exact ⟨sa, sb, hl, hr, h1, h2⟩
  | lessThanOrEqual =>
    obtain ⟨sa, sb, hl, hr, hf⟩ := bind_bind_some h
    obtain ⟨h1, h2⟩ := cmpScalars_some_nonnull .gt sa sb (!inv) b hf
    exact ⟨sa, sb, hl, hr, h1, h2⟩
  | greaterThan =>
    obtain ⟨sa, sb, hl, hr, hf⟩ := bind_bind_some h
    obtain ⟨h1, h2⟩ := cmpScalars_some_nonnull .gt sa sb inv b hf
    exact ⟨sa, sb, hl, hr, h1, h2⟩
  | greaterThanOrEqual =>
    obtain ⟨sa, sb, hl, hr, hf⟩ := bind_bind_some h
    obtain ⟨h1, h2⟩ := cmpScalars_some_nonnull .lt sa sb (!inv) b hf
    exact ⟨sa, sb, hl, hr, h1, h2⟩
  | equal =>
    obtain ⟨sa, sb, hl, hr, hf⟩ := bind_bind_some h
    obtain ⟨h1, h2⟩ := cmpScalars_some_nonnull .eq sa sb inv b hf
    exact ⟨sa, sb, hl, hr, h1, h2⟩
  | notEqual =>
    obtain ⟨sa, sb, hl, hr, hf⟩ := bind_bind_some h
    obtain ⟨h1, h2⟩ := cmpScalars_some_nonnull .eq sa sb (!inv) b hf
    exact ⟨sa, sb, hl, hr, h1, h2⟩

/-- Comparison routing with a null left scalar is unknown. -/
theorem evalBinaryScalars_null_left (op : BinaryOperator) (t : DataType)
    (sb : Scalar) (inv : Bool) :
    evalBinaryScalars op (.null t) sb inv = none := by
  cases op <;> simp [evalBinaryScalars, cmpScalars, tryCmp_null_left]

/-- Comparison routing with a null right scalar is unknown. -/
theorem evalBinaryScalars_null_right (op : BinaryOperator) (sa : Scalar)
    (t : DataType) (inv : Bool) :
    evalBinaryScalars op sa (.null t) inv = none := by
  cases op <;> simp [evalBinaryScalars, cmpScalars, tryCmp_null_right]

/-- `IN` with a null-resolving left operand is unknown. -/
theorem evalIn_null_left (R : Resolver) (l r : Expr) (inv : Bool)
    (t : DataType) (hl : resolveExpr R l = some (.null t)) :
    evalIn R l r inv = none := by
  cases r with
  | lit s => cases s <;> simp [evalIn, hl, Scalar.isNull]
  | col c => simp [evalIn, hl]
  | isNull e => simp [evalIn, hl]
  | not e => simp [evalIn, hl]
  | binary op' l' r' => simp [evalIn, hl]
  | junction op' ps => simp [evalIn, hl]

/-- `IN` with a null-resolving right operand is unknown (such an operand
is never an array literal). -/
theorem evalIn_null_right (R : Resolver) (l r : Expr) (inv : Bool)
    (t : DataType) (hr : resolveExpr R r = some (.null t)) :
    evalIn R l r inv = none := by
  cases hl : resolveExpr R l with
  | none => cases r <;> simp [evalIn, hl]
  | some sa =>
    cases r with
    | lit s =>
      have hs : s = .null t := by
        simpa [resolveExpr] using hr
      subst hs
      simp [evalIn, hl]
    | col c => simp [evalIn, hl]
    | isNull e => simp [evalIn, hl]
    | not e => simp [evalIn, hl]
    | binary op' l' r' => simp [evalIn, hl]
    | junction op' ps => simp [evalIn, hl]

/-- A non-`DISTINCT` binary operation over a null-resolving left operand
is unknown. -/
theorem evalBinary_null_left (R : Resolver) (op : BinaryOperator)
    (l r : Expr) (inv : Bool) (t : DataType) (hop : op ≠ .distinct)
    (hl : resolveExpr R l = some (.null t)) :
    evalBinary R op l r inv = none := by
  cases op with
  | plus => rfl
  | minus => rfl
  | multiply => rfl
  | divide => rfl
  | distinct => exact absurd rfl hop
  | inOp => exact evalIn_null_left R l r inv t hl
  | notInOp => exact evalIn_null_left R l r (!inv) t hl
  | lessThan =>
    show ((resolveExpr R l).bind fun a => (resolveExpr R r).bind
      fun c => evalBinaryScalars .lessThan a c inv) = none
    rw [hl]
    cases hr : resolveExpr R r <;> simp [evalBinaryScalars_null_left]
  | lessThanOrEqual =>
    show ((resolveExpr R l).bind fun a => (resolveExpr R r).bind
      fun c => evalBinaryScalars .lessThanOrEqual a c inv) = none
    rw [hl]
    cases hr : resolveExpr R r <;> simp [evalBinaryScalars_null_left]
  | greaterThan =>
    show ((resolveExpr R l).bind fun a => (resolveExpr R r).bind
      fun c => evalBinaryScalars .greaterThan a c inv) = none
    rw [hl]
    cases hr : resolveExpr R r <;> simp [evalBinaryScalars_null_left]
  | greaterThanOrEqual =>
    show ((resolveExpr R l).bind fun a => (resolveExpr R r).bind
      fun c => evalBinaryScalars .greaterThanOrEqual a c inv) = none
    rw [hl]
    cases hr : resolveExpr R r <;> simp [evalBinaryScalars_null_left]
  | equal =>
    show ((resolveExpr R l).bind fun a => (resolveExpr R r).bind
      fun c => evalBinaryScalars .equal a c inv) = none
    rw [hl]
    cases hr : resolveExpr R r <;> simp [evalBinaryScalars_null_left]
  | notEqual =>
    show ((resolveExpr R l).bind fun a => (resolveExpr R r).bind
      fun c => evalBinaryScalars .notEqual a c inv) = none
    rw [hl]
    cases hr : resolveExpr R r <;> simp [evalBinaryScalars_null_left]

/-- A non-`DISTINCT` binary operation over a null-resolving right
operand is unknown. -/
theorem evalBinary_null_right (R : Resolver) (op : BinaryOperator)
    (l r : Expr) (inv : Bool) (t : DataType) (hop : op ≠ .distinct)
    (hr : resolveExpr R r = some (.null t)) :
    evalBinary R op l r inv = none := by
  cases op with
  | plus => rfl
  | minus => rfl
  | multiply => rfl
  | divide => rfl
  | distinct => exact absurd rfl hop
  | inOp => exact evalIn_null_right R l r inv t hr
  | notInOp => exact evalIn_null_right R l r (!inv) t hr
  | lessThan =>
    show ((resolveExpr R l).bind fun a => (resolveExpr R r).bind
      fun c => evalBinaryScalars .lessThan a c inv) = none
    rw [hr]
    cases hl : resolveExpr R l <;> simp [evalBinaryScalars_null_right]
  | lessThanOrEqual =>
    show ((resolveExpr R l).bind fun a => (resolveExpr R r).bind
      fun c => evalBinaryScalars .lessThanOrEqual a c inv) = none
    rw [hr]
    cases hl : resolveExpr R l <;> simp [evalBinaryScalars_null_right]
  | greaterThan =>
    show ((resolveExpr R l).bind fun a => (resolveExpr R r).bind
      fun c => evalBinaryScalars .greaterThan a c inv) = none
    rw [hr]
    cases hl : resolveExpr R l <;> simp [evalBinaryScalars_null_right]
  | greaterThanOrEqual =>
    show ((resolveExpr R l).bind fun a => (resolveExpr R r).bind
      fun c => evalBinaryScalars .greaterThanOrEqual a c inv) = none
    rw [hr]
    cases hl : resolveExpr R l <;> simp [evalBinaryScalars_null_right]
  | equal =>
    show ((resolveExpr R l).bind fun a => (resolveExpr R r).bind
      fun c => evalBinaryScalars .equal a c inv) = none
    rw [hr]
    cases hl : resolveExpr R l <;> simp [evalBinaryScalars_null_right]
  | notEqual =>
    show ((resolveExpr R l).bind fun a => (resolveExpr R r).bind
      fun c => evalBinaryScalars .notEqual a c inv) = none
    rw [hr]
    cases hl : resolveExpr R l <;> simp [evalBinaryScalars_null_right]

/-- The null-guard junction over a non-null check and a known value
yields the value. -/
theorem finish_and2_val (b : Bool) :
    finishJunctionAux false false [some true, some b] = some b := by
  cases b <;> rfl

/-- The null-guard junction over two non-null checks and a known value
yields the value. -/
theorem finish_and3_val (b : Bool) :
    finishJunctionAux false false [some true, some true, some b] =
      some b := by
  cases b <;> rfl

/-- Inversion of a known two-element null-guard junction. -/
theorem finish_and2_inv :
    ∀ (x y : Option Bool) (b : Bool),
      finishJunctionAux false false [x, y] = some b →
        y = some b ∨ (b = false ∧ x = some false) := by
  decide

/-- Inversion of a known three-element null-guard junction. -/
theorem finish_and3_inv :
    ∀ (x y z : Option Bool) (b : Bool),
      finishJunctionAux false false [x, y, z] = some b →
        z = some b ∨ (b = false ∧ (x = some false ∨ y = some false)) := by
  decide

/-- A false null-check identifies a null-resolving operand. -/
theorem isNullCheck_false (R : Resolver) (e : Expr)
    (h : evalIsNullExpr R e true = some false) :
    ∃ t, resolveExpr R e = some (.null t) := by
  unfold evalIsNullExpr at h
  cases hres : resolveExpr R e with
  | none => rw [hres] at h; simp at h
  | some s =>
    rw [hres] at h
    simp only [Option.map_some', Option.some.injEq] at h
    have hsn : s.isNull = true := by cases hsn : s.isNull <;> simp_all
    obtain ⟨t, rfl⟩ := isNull_shape s hsn
    exact ⟨t, rfl⟩

/-- Agreement half of the refinement, generalized over the `inverted`
flag: wherever the standard evaluator returns a known boolean, the SQL
`WHERE` evaluator returns the same boolean. -/
theorem eval_imp_sqlWhere (R : Resolver) (p : Expr) :
    ∀ inv b : Bool, evalExprInv R p inv = some b →
      evalSqlWhereInv R p inv = some b := by
  match p with
  | .lit s =>
    intro inv b h
    have hnn : s.isNull = false := evalScalar_isNull s inv b h
    show finishEvalJunction .and
      [evalIsNullExpr R (.lit s) true, evalScalar s inv] false = some b
    rw [show evalIsNullExpr R (.lit s) true = some true by
      simp [evalIsNullExpr, resolveExpr, hnn]]
    rw [show evalScalar s inv = some b from h]
    exact finish_and2_val b
  | .col c =>
    intro inv b h
    have h' : (match R c with
        | some s => evalScalar s inv
        | none => none) = some b := h
    cases hc : R c with
    | none => rw [hc] at h'; exact absurd h' (by simp)
    | some s =>
      rw [hc] at h'
      have hnn : s.isNull = false := evalScalar_isNull s inv b h'
      show finishEvalJunction .and
        [evalIsNullExpr R (.col c) true, evalColumn R c inv] false = some b
      rw [show evalIsNullExpr R (.col c) true = some true by
        simp [evalIsNullExpr, resolveExpr, hc, hnn]]
      rw [show evalColumn R c inv = some b by
        simp only [evalColumn, hc]; exact h']
      exact finish_and2_val b
  | .isNull e => intro inv b h; exact h
  | .not e => intro inv b h; exact eval_imp_sqlWhere R e (!inv) b h
  | .binary op l r =>
    intro inv b h
    by_cases hop : op = .distinct
    · subst hop
      show (if (BinaryOperator.distinct = .distinct) then
        evalBinary R .distinct l r inv else _) = some b
      rw [if_pos rfl]
      exact h
    · obtain ⟨sa, sb, hl, hr, ha, hb2⟩ :=
        evalBinary_some_nonnull R op l r inv b hop h
      show (if op = .distinct then _ else
        finishEvalJunction .and
          [evalIsNullExpr R l true, evalIsNullExpr R r true,
            evalBinary R op l r inv] false) = some b
      rw [if_neg hop]
      rw [show evalIsNullExpr R l true = some true by
        simp [evalIsNullExpr, hl, ha]]
      rw [show evalIsNullExpr R r true = some true by
        simp [evalIsNullExpr, hr, hb2]]
      rw [show evalBinary R op l r inv = some b from h]
      exact finish_and3_val b
  | .junction op ps =>
    intro inv b h
    have ih : ∀ q ∈ ps, ∀ b' : Bool,
        evalExprInv R q inv = some b' → evalSqlWhereInv R q inv = some b' :=
      fun q hq b' => eval_imp_sqlWhere R q inv b'
    have hf := forall2_map_of_forall
      (fun x y => ∀ b', x = some b' → y = some b')
      (fun q => evalExprInv R q inv) (fun q => evalSqlWhereInv R q inv) ps
      ih
    have h' : finishEvalJunction op (evalExprListInv R ps inv) inv =
        some b := h
    show finishEvalJunction op (evalSqlWhereListInv R ps inv) inv = some b
    unfold finishEvalJunction at h' ⊢
    rw [evalExprListInv_eq_map] at h'
    rw [evalSqlWhereListInv_eq_map]
    exact finish_transfer_agree _ _ _ hf b h'
termination_by sizeOf p
decreasing_by
  · simp_wf
  · simp_wf
    have := List.sizeOf_lt_of_mem hq
    omega

/-- Safety half of the refinement, generalized over the `inverted` flag:
wherever the SQL `WHERE` evaluator returns a known boolean, the standard
evaluator returns the same boolean or unknown. -/
theorem sqlWhere_imp_eval (R : Resolver) (p : Expr) :
    ∀ inv b : Bool, evalSqlWhereInv R p inv = some b →
      evalExprInv R p inv = some b ∨ evalExprInv R p inv = none := by
  match p with
  | .lit s =>
    intro inv b h
    have h' : finishJunctionAux false false
        [evalIsNullExpr R (.lit s) true, evalScalar s inv] = some b := h
    rcases finish_and2_inv _ _ _ h' with hy | ⟨rfl, hx⟩
    · left; exact hy
    · right
      obtain ⟨t, hres⟩ := isNullCheck_false R (.lit s) hx
      have hs : s = .null t := by simpa [resolveExpr] using hres
      subst hs
      rfl
  | .col c =>
    intro inv b h
    have h' : finishJunctionAux false false
        [evalIsNullExpr R (.col c) true, evalColumn R c inv] = some b := h
    rcases finish_and2_inv _ _ _ h' with hy | ⟨rfl, hx⟩
    · left; exact hy
    · right
      obtain ⟨t, hres⟩ := isNullCheck_false R (.col c) hx
      have hc : R c = some (.null t) := hres
      show (match R c with
        | some s => evalScalar s inv
        | none => none) = none
      rw [hc]
      rfl
  | .isNull e => intro inv b h; left; exact h
  | .not e => intro inv b h; exact sqlWhere_imp_eval R e (!inv) b h
  | .binary op l r =>
    intro inv b h
    by_cases hop : op = .distinct
    · subst hop
      left
      have h' : (if (BinaryOperator.distinct = .distinct) then
          evalBinary R .distinct l r inv else
          finishEvalJunction .and
            [evalIsNullExpr R l true, evalIsNullExpr R r true,
              evalBinary R .distinct l r inv] false) = some b := h
      rw [if_pos rfl] at h'
      exact h'
    · have h' : (if op = .distinct then
          evalBinary R op l r inv else
          finishEvalJunction .and
            [evalIsNullExpr R l true, evalIsNullExpr R r true,
              evalBinary R op l r inv] false) = some b := h
      rw [if_neg hop] at h'
      rcases finish_and3_inv _ _ _ _ h' with hz | ⟨rfl, hx⟩
      · left; exact hz
      · right
        rcases hx with hxl | hxr
        · obtain ⟨t, hres⟩ := isNullCheck_false R l hxl
          exact evalBinary_null_left R op l r inv t hop hres
        · obtain ⟨t, hres⟩ := isNullCheck_false R r hxr
          exact evalBinary_null_right R op l r inv t hop hres
  | .junction op ps =>
    intro inv b h
    have ih : ∀ q ∈ ps, ∀ b' : Bool,
        evalSqlWhereInv R q inv = some b' →
          evalExprInv R q inv = some b' ∨ evalExprInv R q inv = none :=
      fun q hq b' => sqlWhere_imp_eval R q inv b'
    have hf := forall2_map_of_forall
      (fun x y => ∀ b', y = some b' → x = some b' ∨ x = none)
      (fun q => evalExprInv R q inv) (fun q => evalSqlWhereInv R q inv) ps
      ih
    have h' : finishEvalJunction op (evalSqlWhereListInv R ps inv) inv =
        some b := h
    unfold finishEvalJunction at h'
    rw [evalSqlWhereListInv_eq_map] at h'
    have := finish_transfer_safe _ _ _ hf b h'
    show finishEvalJunction op (evalExprListInv R ps inv) inv = some b ∨
      finishEvalJunction op (evalExprListInv R ps inv) inv = none
    unfold finishEvalJunction
    rw [evalExprListInv_eq_map]
    exact this
termination_by sizeOf p
decreasing_by
  · simp_wf
  · simp_wf
    have := List.sizeOf_lt_of_mem hq
    omega

/-- Claim C1: for every predicate `P` and every column resolver `R` — if
`eval_sql_where(P)` returns `some false` then `eval(P)` is `some false`
or unknown, never `some true`; and whenever `eval(P)` returns
`some true` or `some false`, `eval_sql_where(P)` returns the same
value. -/
theorem claim_c1 (R : Resolver) (P : Expr) :
    (evalSqlWhere R P = some false → eval R P ≠ some true) ∧
      (∀ b : Bool, eval R P = some b → evalSqlWhere R P = some b) := by
  constructor
  · intro hw he
    have he' : evalExprInv R P false = some true := he
    rcases sqlWhere_imp_eval R P false false hw with h | h
    · rw [he'] at h; simp at h
    · rw [he'] at h; simp at h
  · intro b he
    exact eval_imp_sqlWhere R P false b he

/-- Concrete instance of claim C1: with every column resolving to null,
`WHERE x < 1` is statically skippable (`eval_sql_where` gives
`some false`) while `eval` never returns `some true` on it. -/
theorem claim_c1_witness :
    eval nullResolver (.binary .lessThan (.col "x") (.lit (.integer 1))) ≠
      some true :=
  (claim_c1 nullResolver
      (.binary .lessThan (.col "x") (.lit (.integer 1)))).1 rfl

/-! ## Digit-machinery lemmas (for claims C2 and C9) -/

/-- The fuel argument of `natDigitsAux` is irrelevant once adequate. -/
theorem natDigitsAux_congr :
    ∀ (fuel1 : Nat) (n fuel2 : Nat), n ≤ fuel1 → n ≤ fuel2 →
      natDigitsAux fuel1 n = natDigitsAux fuel2 n := by
  intro fuel1
  induction fuel1 with
  | zero =>
    intro n fuel2 h1 _
    interval_cases n
    cases fuel2 <;> rfl
  | succ f ih =>
    intro n fuel2 h1 h2
    match n, fuel2 with
    | 0, 0 => rfl
    | 0, g + 1 => rfl
    | m + 1, g + 1 =>
      have hdiv : (m + 1) / 10 ≤ m := by
        have := Nat.div_lt_self (Nat.succ_pos m) (by norm_num : 1 < 10)
        omega
      have h1' : (m + 1) / 10 ≤ f := le_trans hdiv (by omega)
      have h2' : (m + 1) / 10 ≤ g := le_trans hdiv (by omega)
      show ((m + 1) % 10) :: natDigitsAux f ((m + 1) / 10) =
        ((m + 1) % 10) :: natDigitsAux g ((m + 1) / 10)
      rw [ih ((m + 1) / 10) g h1' h2']

/-- Unfolding of `natDigits` on a positive number. -/
theorem natDigits_succ (m : Nat) :
    natDigits (m + 1) = ((m + 1) % 10) :: natDigits ((m + 1) / 10) := by
  show natDigitsAux (m + 1) (m + 1) = _
  have hdiv : (m + 1) / 10 ≤ m := by
    have := Nat.div_lt_self (Nat.succ_pos m) (by norm_num : 1 < 10)
    omega
  show ((m + 1) % 10) :: natDigitsAux m ((m + 1) / 10) = _
  rw [natDigitsAux_congr m ((m + 1) / 10) ((m + 1) / 10) hdiv le_rfl]
  rfl

/-- The digit list's little-endian value recovers the number. -/
theorem valLE_natDigits (n : Nat) : valLE (natDigits n) = n := by
  induction n using Nat.strong_induction_on with
  | _ n ih =>
    match n with
    | 0 => rfl
    | m + 1 =>
      rw [natDigits_succ]
      have hlt : (m + 1) / 10 < m + 1 :=
        Nat.div_lt_self (Nat.succ_pos m) (by norm_num)
      show ((m + 1) % 10) + 10 * valLE (natDigits ((m + 1) / 10)) = m + 1
      rw [ih ((m + 1) / 10) hlt]
      omega

/-- All digits produced by `natDigitsAux` are below ten. -/
theorem natDigitsAux_lt (fuel : Nat) :
    ∀ n d, d ∈ natDigitsAux fuel n → d < 10 := by
  induction fuel with
  | zero => intro n d h; cases h
  | succ f ih =>
    intro n d h
    match n with
    | 0 => cases h
    | m + 1 =>
      rcases List.mem_cons.mp h with rfl | h'
      · exact Nat.mod_lt _ (by norm_num)
      · exact ih _ _ h'

/-- A number below `10 ^ k` has at most `k` digits. -/
theorem natDigits_length_le (k : Nat) :
    ∀ n, n < 10 ^ k → (natDigits n).length ≤ k := by
  induction k with
  | zero =>
    intro n h
    interval_cases n
    simp [natDigits, natDigitsAux]
  | succ k ih =>
    intro n h
    match n with
    | 0 => simp [natDigits, natDigitsAux]
    | m + 1 =>
      rw [natDigits_succ]
      have : (m + 1) / 10 < 10 ^ k := by
        rw [Nat.div_lt_iff_lt_mul (by norm_num : 0 < 10)]
        calc m + 1 < 10 ^ (k + 1) := h
        _ = 10 ^ k * 10 := by ring
      simpa using ih ((m + 1) / 10) this

/-- A number is below `10 ^ digitCount`. -/
theorem lt_pow_natDigitCount (n : Nat) : n < 10 ^ natDigitCount n := by
  induction n using Nat.strong_induction_on with
  | _ n ih =>
    match n with
    | 0 => simp [natDigitCount, natDigits, natDigitsAux]
    | m + 1 =>
      have hlt : (m + 1) / 10 < m + 1 :=
        Nat.div_lt_self (Nat.succ_pos m) (by norm_num)
      have := ih ((m + 1) / 10) hlt
      have hcount : natDigitCount (m + 1) =
          natDigitCount ((m + 1) / 10) + 1 := by
        simp [natDigitCount, natDigits_succ]
      rw [hcount, pow_succ]
      have h1 : (m + 1) / 10 + 1 ≤ 10 ^ natDigitCount ((m + 1) / 10) :=
        this
      have h2 : m + 1 < ((m + 1) / 10 + 1) * 10 := by
        have := Nat.mod_lt (m + 1) (show 0 < 10 by norm_num)
        have := Nat.div_add_mod (m + 1) 10
        omega
      calc m + 1 < ((m + 1) / 10 + 1) * 10 := h2
      _ ≤ 10 ^ natDigitCount ((m + 1) / 10) * 10 :=
        Nat.mul_le_mul_right 10 h1

/-- Folding the rendered digits of a digit list accumulates its value. -/
theorem foldDigits_reverse_map (l : List Nat) (hd : ∀ d ∈ l, d < 10) :
    ∀ acc, foldDigits acc (l.reverse.map digitChar) =
      acc * 10 ^ l.length + valLE l := by
  induction l with
  | nil => intro acc; simp [foldDigits, valLE]
  | cons d ds ih =>
    intro acc
    have hd' : ∀ x ∈ ds, x < 10 := fun x hx =>
      hd x (List.mem_cons_of_mem _ hx)
    have hdd : d < 10 := hd d (List.mem_cons_self _ _)
    have hdval : (digitChar d).toNat - 48 = d := by
      interval_cases d <;> decide
    rw [List.reverse_cons, List.map_append]
    show List.foldl _ acc (ds.reverse.map digitChar ++ [digitChar d]) = _
    rw [List.foldl_append]
    show (foldDigits acc (ds.reverse.map digitChar)) * 10 +
      ((digitChar d).toNat - 48) = _
    rw [ih hd', hdval]
    show (acc * 10 ^ ds.length + valLE ds) * 10 + d =
      acc * 10 ^ (ds.length + 1) + (d + 10 * valLE ds)
    ring

/-- Folding the decimal rendering of `n` from accumulator `acc` yields
`acc` shifted plus `n`. -/
theorem foldDigits_natChars (n : Nat) (acc : Nat) :
    foldDigits acc (natChars n) =
      acc * 10 ^ (natChars n).length + n := by
  by_cases h0 : n = 0
  · subst h0
    show foldDigits acc ['0'] = acc * 10 ^ 1 + 0
    show acc * 10 + ('0'.toNat - 48) = acc * 10 ^ 1 + 0
    simp
  · have hne : natChars n = (natDigits n).reverse.map digitChar := by
      simp [natChars, h0]
    rw [hne]
    have hd : ∀ d ∈ natDigits n, d < 10 := fun d hd =>
      natDigitsAux_lt n n d hd
    rw [foldDigits_reverse_map (natDigits n) hd acc]
    simp [valLE_natDigits]

/-- Every character of `natChars` is an ASCII digit. -/
theorem natChars_isDigit (n : Nat) : ∀ c ∈ natChars n, c.isDigit = true := by
  intro c hc
  by_cases h0 : n = 0
  · subst h0
    have : c = '0' := by simpa [natChars] using hc
    subst this; decide
  · have : c ∈ (natDigits n).reverse.map digitChar := by
      simpa [natChars, h0] using hc
    obtain ⟨d, hd, rfl⟩ := List.mem_map.mp this
    have hdd : d < 10 := natDigitsAux_lt n n d (List.mem_reverse.mp hd)
    interval_cases d <;> decide

/-- `natChars` is never empty. -/
theorem natChars_ne_nil (n : Nat) : natChars n ≠ [] := by
  by_cases h0 : n = 0
  · subst h0; simp [natChars]
  · simp only [natChars, h0, if_false]
    match n, h0 with
    | m + 1, _ =>
      rw [natDigits_succ]
      simp

/-- An ASCII digit is neither an exponent marker, nor a dot, nor a
sign. -/
theorem isDigit_not_special (c : Char) (h : c.isDigit = true) :
    isExpMarker c = false ∧ c ≠ '.' ∧ c ≠ '+' ∧ c ≠ '-' := by
  have hle : 48 ≤ c.toNat ∧ c.toNat ≤ 57 := by
    simp only [Char.isDigit, Bool.and_eq_true, decide_eq_true_eq] at h
    exact ⟨h.1, h.2⟩
  refine ⟨?_, ?_, ?_, ?_⟩
  · unfold isExpMarker
    have h1 : (c == 'e') = false := by
      cases hb : c == 'e' with
      | true => have := eq_of_beq hb; subst this; simp at hle
      | false => rfl
    have h2 : (c == 'E') = false := by
      cases hb : c == 'E' with
      | true => have := eq_of_beq hb; subst this; simp at hle
      | false => rfl
    rw [h1, h2]; rfl
  · intro hc; subst hc; simp at hle
  · intro hc; subst hc; simp at hle
  · intro hc; subst hc; simp at hle

/-- `splitOnceBy` finds nothing when no character matches. -/
theorem splitOnceBy_none (p : Char → Bool) :
    ∀ l : List Char, (∀ c ∈ l, p c = false) → splitOnceBy p l = none := by
  intro l
  induction l with
  | nil => intro _; rfl
  | cons c cs ih =>
    intro h
    have hc := h c (List.mem_cons_self _ _)
    simp only [splitOnceBy, hc, Bool.false_eq_true, if_false]
    rw [ih fun x hx => h x (List.mem_cons_of_mem _ hx)]
    rfl

/-- `splitOnceBy` splits at the first matching character. -/
theorem splitOnceBy_append (p : Char → Bool) (c0 : Char) (l2 : List Char)
    (hc0 : p c0 = true) :
    ∀ l1 : List Char, (∀ c ∈ l1, p c = false) →
      splitOnceBy p (l1 ++ c0 :: l2) = some (l1, l2) := by
  intro l1
  induction l1 with
  | nil => intro _; simp [splitOnceBy, hc0]
  | cons c cs ih =>
    intro h
    have hc := h c (List.mem_cons_self _ _)
    show splitOnceBy p (c :: (cs ++ c0 :: l2)) = _
    simp only [splitOnceBy, hc, Bool.false_eq_true, if_false]
    rw [ih fun x hx => h x (List.mem_cons_of_mem _ hx)]
    rfl

/-- Parsing an unsigned all-digit character list yields its folded
value, subject to the range check. -/
theorem parseIntIn_digits (lo hi : Int) (cs : List Char)
    (hne : cs ≠ []) (hd : ∀ c ∈ cs, c.isDigit = true) :
    parseIntIn lo hi cs =
      if lo ≤ (foldDigits 0 cs : Int) ∧ (foldDigits 0 cs : Int) ≤ hi
      then some ((foldDigits 0 cs : Nat) : Int) else none := by
  have hall : cs.all Char.isDigit = true :=
    List.all_eq_true.mpr fun c hc => hd c hc
  match cs, hne with
  | c :: rest, _ =>
    have hc := hd c (List.mem_cons_self _ _)
    obtain ⟨-, -, hplus, hminus⟩ := isDigit_not_special c hc
    simp [parseIntIn, hplus, hminus, hall]

/-- Folding distributes over list append. -/
theorem foldDigits_append (acc : Nat) (l1 l2 : List Char) :
    foldDigits acc (l1 ++ l2) = foldDigits (foldDigits acc l1) l2 :=
  List.foldl_append _ _ _ _

/-- Leading zero characters only shift the accumulator. -/
theorem foldDigits_replicate_zero (k : Nat) :
    ∀ acc, foldDigits acc (List.replicate k '0') = acc * 10 ^ k := by
  induction k with
  | zero => intro acc; simp [foldDigits]
  | succ k ih =>
    intro acc
    show foldDigits acc ('0' :: List.replicate k '0') = acc * 10 ^ (k + 1)
    show foldDigits (acc * 10 + ('0'.toNat - 48)) (List.replicate k '0') = _
    rw [ih]
    show (acc * 10 + 0) * 10 ^ k = acc * 10 ^ (k + 1)
    ring

/-- Zero-padded digits fold to the shifted accumulator plus the
value. -/
theorem foldDigits_padZeros (w : Nat) (l : List Char) (acc : Nat) :
    foldDigits acc (padZeros w l) =
      foldDigits (acc * 10 ^ (w - l.length)) l := by
  unfold padZeros
  rw [foldDigits_append, foldDigits_replicate_zero]

/-- Padding to an adequate width gives exactly that width. -/
theorem padZeros_length (w : Nat) (l : List Char) (h : l.length ≤ w) :
    (padZeros w l).length = w := by
  simp only [padZeros, List.length_append, List.length_replicate]
  omega

/-- Padding preserves digit-ness. -/
theorem padZeros_isDigit (w : Nat) (l : List Char)
    (h : ∀ c ∈ l, c.isDigit = true) :
    ∀ c ∈ padZeros w l, c.isDigit = true := by
  intro c hc
  rcases List.mem_append.mp hc with hc' | hc'
  · have : c = '0' := List.eq_of_mem_replicate hc'
    subst this; decide
  · exact h c hc'

/-- A digit count bounded by `p` bounds the number by `10 ^ p`. -/
theorem lt_pow_of_digitCount_le (n p : Nat) (h : natDigitCount n ≤ p) :
    n < 10 ^ p :=
  lt_of_lt_of_le (lt_pow_natDigitCount n)
    (Nat.pow_le_pow_right (by norm_num) h)

/-- Nonnegative integers render without a sign. -/
theorem intChars_nonneg (i : Int) (h : 0 ≤ i) :
    intChars i = natChars i.natAbs := by
  simp [intChars, not_lt.mpr h]

/-! ## Claim C2 — decimal display/parse round-trip -/

/-- Counterexample to claim C2 as stated: the decimal with bits `-1`,
precision 1 and scale 1 is accepted by `DecimalData::try_new` and its
type is valid, but it displays as `"0.-1"` (truncating division leaks
the sign into the fraction), which `parse_decimal` rejects instead of
round-tripping. -/
theorem claim_c2_counterexample :
    DecimalData.tryNew (-1) ⟨1, 1⟩ = .ok ⟨-1, ⟨1, 1⟩⟩ ∧
      DecimalType.valid ⟨1, 1⟩ ∧
      DecimalData.display ⟨-1, ⟨1, 1⟩⟩ = "0.-1" ∧
      parseDecimal (DecimalData.display ⟨-1, ⟨1, 1⟩⟩) ⟨1, 1⟩ =
        .error (.parseError (DecimalData.display ⟨-1, ⟨1, 1⟩⟩)) := by
  refine ⟨rfl, ⟨by norm_num, by norm_num⟩, rfl, rfl⟩

/-- The rendering of a number below `10 ^ s` (with `s` positive) has at
most `s` characters. -/
theorem natChars_length_le (s r : Nat) (hs : 0 < s) (hr : r < 10 ^ s) :
    (natChars r).length ≤ s := by
  by_cases h0 : r = 0
  · subst h0; simpa [natChars] using hs
  · simp only [natChars, h0, if_false, List.length_map,
      List.length_reverse]
    exact natDigits_length_le s r hr

/-- The folded value of the displayed digit characters is within the
`i128` range whenever the digit count is within a valid precision. -/
theorem fold_range (n : Nat) (p : Nat) (hprec : natDigitCount n ≤ p)
    (hp38 : p ≤ 38) :
    i128Min ≤ (n : Int) ∧ (n : Int) ≤ i128Max := by
  constructor
  · have : (0 : Int) ≤ n := Int.ofNat_nonneg n
    unfold i128Min
    omega
  · have h1 : n < 10 ^ 38 :=
      lt_of_lt_of_le (lt_pow_of_digitCount_le n p hprec)
        (Nat.pow_le_pow_right (by norm_num) hp38)
    have h2 : ((10 : Nat) ^ 38 : Int) ≤ i128Max := by
      unfold i128Max; norm_num
    have : (n : Int) < ((10 : Nat) ^ 38 : Int) := by exact_mod_cast h1
    omega

/-- Reduction of `parseDecimalBase` once the dot split is known. -/
theorem parseDecimalBase_eq (raw : String) (dtype : DecimalType)
    (base : List Char) (exp : Int) (intPart fracPart : List Char)
    (hne : base ≠ [])
    (hsplit : (match splitOnceBy (· == '.') base with
      | none => (base, ([] : List Char))
      | some r => if r.2 = [] then (r.1, []) else r) =
      (intPart, fracPart)) :
    parseDecimalBase raw dtype base exp =
      (if 0 ≤ ((fracPart.length : Int) - exp) ∧
          ((fracPart.length : Int) - exp) ≤ 255 then
        if ((fracPart.length : Int) - exp) = (dtype.scale : Int) then
          match parseI128 (intPart ++ fracPart) with
          | some v =>
            match DecimalData.tryNew v dtype with
            | .ok d => .ok (.decimal d)
            | .error e => .error e
          | none => .error .parseIntError
        else .error (.parseError raw)
      else .error (.parseError raw)) := by
  unfold parseDecimalBase
  rw [if_neg hne, hsplit]

/-- Claim C2, amended to nonnegative values: for every decimal with
`0 ≤ bits` accepted by `DecimalData::try_new` at a valid `(p, s)`,
parsing the displayed string with the same declared precision and scale
yields the original value.  (As stated the claim fails for negative
bits — see the counterexample: truncating division leaks the sign into
the rendered fraction.) -/
theorem claim_c2_amended (bits : Int) (dt : DecimalType)
    (hb : 0 ≤ bits) (hvalid : dt.valid)
    (hok : DecimalData.tryNew bits dt = .ok ⟨bits, dt⟩) :
    parseDecimal (DecimalData.display ⟨bits, dt⟩) dt =
      .ok (.decimal ⟨bits, dt⟩) := by
  obtain ⟨hsp, hp38⟩ := hvalid
  have hprec : natDigitCount bits.natAbs ≤ dt.precision := by
    by_cases h : dt.precision ≥ natDigitCount bits.natAbs
    · exact h
    · rw [DecimalData.tryNew, if_neg h] at hok; cases hok
  have hbn : ((bits.natAbs : Nat) : Int) = bits := Int.natAbs_of_nonneg hb
  have hrange := fold_range bits.natAbs dt.precision hprec hp38
  by_cases hs : dt.scale = 0
  · -- scale-zero branch: the display is just the digits of the value
    have hdisp : (DecimalData.display ⟨bits, dt⟩).data =
        natChars bits.natAbs := by
      show (DecimalData.displayChars ⟨bits, dt⟩) = _
      unfold DecimalData.displayChars
      rw [if_pos hs, intChars_nonneg bits hb]
    have hdig := natChars_isDigit bits.natAbs
    have hne := natChars_ne_nil bits.natAbs
    have hfold : foldDigits 0 (natChars bits.natAbs) = bits.natAbs := by
      have := foldDigits_natChars bits.natAbs 0
      simpa using this
    unfold parseDecimal
    rw [hdisp, splitOnceBy_none isExpMarker (natChars bits.natAbs)
      (fun c hc => (isDigit_not_special c (hdig c hc)).1)]
    show parseDecimalBase (DecimalData.display ⟨bits, dt⟩) dt
      (natChars bits.natAbs) 0 = _
    rw [parseDecimalBase_eq _ dt (natChars bits.natAbs) 0
      (natChars bits.natAbs) [] hne
      (by rw [splitOnceBy_none (· == '.') (natChars bits.natAbs)
        (fun c hc => beq_eq_false_iff_ne.mpr
          (isDigit_not_special c (hdig c hc)).2.1)])]
    rw [if_pos (by norm_num), if_pos (by simp [hs])]
    rw [List.append_nil]
    rw [show parseI128 (natChars bits.natAbs) =
      parseIntIn i128Min i128Max (natChars bits.natAbs) from rfl]
    rw [parseIntIn_digits i128Min i128Max (natChars bits.natAbs) hne hdig]
    rw [hfold, if_pos hrange, hbn]
    show (match DecimalData.tryNew bits dt with
      | .ok d => Except.ok (Scalar.decimal d)
      | .error e => Except.error e) = _
    rw [hok]
  · -- positive-scale branch
    have hs' : 0 < dt.scale := Nat.pos_of_ne_zero hs
    have hpow : (0 : Nat) < 10 ^ dt.scale :=
      Nat.pos_pow_of_pos _ (by norm_num)
    have hRlt : bits.natAbs % 10 ^ dt.scale < 10 ^ dt.scale :=
      Nat.mod_lt _ hpow
    have hlenR :
        (natChars (bits.natAbs % 10 ^ dt.scale)).length ≤ dt.scale :=
      natChars_length_le dt.scale _ hs' hRlt
    have hdisp : (DecimalData.display ⟨bits, dt⟩).data =
        natChars (bits.natAbs / 10 ^ dt.scale) ++ '.' ::
          padZeros dt.scale (natChars (bits.natAbs % 10 ^ dt.scale)) := by
      show (DecimalData.displayChars ⟨bits, dt⟩) = _
      unfold DecimalData.displayChars
      rw [if_neg hs]
      have h10 : ((10 : Int) ^ dt.scale) =
          ((10 ^ dt.scale : Nat) : Int) := by norm_cast
      have htd : bits.tdiv ((10 : Int) ^ dt.scale) =
          ((bits.natAbs / 10 ^ dt.scale : Nat) : Int) := by
        rw [h10, ← hbn]; rfl
      have htm : bits.tmod ((10 : Int) ^ dt.scale) =
          ((bits.natAbs % 10 ^ dt.scale : Nat) : Int) := by
        rw [h10, ← hbn]; rfl
      rw [htd, htm, intChars_nonneg _ (Int.ofNat_nonneg _),
        intChars_nonneg _ (Int.ofNat_nonneg _)]
      simp only [Int.natAbs_ofNat]
    have hdigQ := natChars_isDigit (bits.natAbs / 10 ^ dt.scale)
    have hdigF : ∀ c ∈
        padZeros dt.scale (natChars (bits.natAbs % 10 ^ dt.scale)),
        c.isDigit = true :=
      padZeros_isDigit dt.scale _ (natChars_isDigit _)
    have hneQ := natChars_ne_nil (bits.natAbs / 10 ^ dt.scale)
    have hlenF :
        (padZeros dt.scale
          (natChars (bits.natAbs % 10 ^ dt.scale))).length = dt.scale :=
      padZeros_length dt.scale _ hlenR
    have hneF : padZeros dt.scale
        (natChars (bits.natAbs % 10 ^ dt.scale)) ≠ [] := by
      intro h
      rw [h] at hlenF
      simp at hlenF
      omega
    have hallE : ∀ c ∈ natChars (bits.natAbs / 10 ^ dt.scale) ++ '.' ::
        padZeros dt.scale (natChars (bits.natAbs % 10 ^ dt.scale)),
        isExpMarker c = false := by
      intro c hc
      rcases List.mem_append.mp hc with hc' | hc'
      · exact (isDigit_not_special c (hdigQ c hc')).1
      · rcases List.mem_cons.mp hc' with rfl | hc''
        · decide
        · exact (isDigit_not_special c (hdigF c hc'')).1
    have hfold : foldDigits 0 (natChars (bits.natAbs / 10 ^ dt.scale) ++
        padZeros dt.scale (natChars (bits.natAbs % 10 ^ dt.scale))) =
        bits.natAbs := by
      rw [foldDigits_append]
      have h1 : foldDigits 0 (natChars (bits.natAbs / 10 ^ dt.scale)) =
          bits.natAbs / 10 ^ dt.scale := by
        have := foldDigits_natChars (bits.natAbs / 10 ^ dt.scale) 0
        simpa using this
      rw [h1, foldDigits_padZeros, foldDigits_natChars, mul_assoc,
        ← pow_add]
      have hcomb : dt.scale -
          (natChars (bits.natAbs % 10 ^ dt.scale)).length +
          (natChars (bits.natAbs % 10 ^ dt.scale)).length = dt.scale := by
        omega
      rw [hcomb]
      exact Nat.div_add_mod' bits.natAbs (10 ^ dt.scale)
    unfold parseDecimal
    rw [hdisp, splitOnceBy_none isExpMarker _ hallE]
    show parseDecimalBase (DecimalData.display ⟨bits, dt⟩) dt
      (natChars (bits.natAbs / 10 ^ dt.scale) ++ '.' ::
        padZeros dt.scale (natChars (bits.natAbs % 10 ^ dt.scale))) 0 = _
    rw [parseDecimalBase_eq _ dt _ 0
      (natChars (bits.natAbs / 10 ^ dt.scale))
      (padZeros dt.scale (natChars (bits.natAbs % 10 ^ dt.scale)))
      (by simp [hneQ])
      (by
        rw [splitOnceBy_append (· == '.') '.'
          (padZeros dt.scale (natChars (bits.natAbs % 10 ^ dt.scale)))
          (by decide) (natChars (bits.natAbs / 10 ^ dt.scale))
          (fun c hc => beq_eq_false_iff_ne.mpr
            (isDigit_not_special c (hdigQ c hc)).2.1)]
        show (if padZeros dt.scale
            (natChars (bits.natAbs % 10 ^ dt.scale)) = []
          then (natChars (bits.natAbs / 10 ^ dt.scale), ([] : List Char))
          else (natChars (bits.natAbs / 10 ^ dt.scale),
            padZeros dt.scale
              (natChars (bits.natAbs % 10 ^ dt.scale)))) = _
        rw [if_neg hneF])]
    rw [hlenF]
    rw [if_pos (by omega)]
    rw [if_pos (by ring)]
    have hneC : natChars (bits.natAbs / 10 ^ dt.scale) ++
        padZeros dt.scale (natChars (bits.natAbs % 10 ^ dt.scale)) ≠ [] := by
      simp [hneQ]
    have hdigC : ∀ c ∈ natChars (bits.natAbs / 10 ^ dt.scale) ++
        padZeros dt.scale (natChars (bits.natAbs % 10 ^ dt.scale)),
        c.isDigit = true := by
      intro c hc
      rcases List.mem_append.mp hc with hc' | hc'
      · exact hdigQ c hc'
      · exact hdigF c hc'
    rw [show parseI128 (natChars (bits.natAbs / 10 ^ dt.scale) ++
        padZeros dt.scale (natChars (bits.natAbs % 10 ^ dt.scale))) =
      parseIntIn i128Min i128Max
        (natChars (bits.natAbs / 10 ^ dt.scale) ++
          padZeros dt.scale (natChars (bits.natAbs % 10 ^ dt.scale)))
      from rfl]
    rw [parseIntIn_digits i128Min i128Max _ hneC hdigC]
    rw [hfold, if_pos hrange, hbn]
    show (match DecimalData.tryNew bits dt with
      | .ok d => Except.ok (Scalar.decimal d)
      | .error e => Except.error e) = _
    rw [hok]

/-- Concrete instance of the amended claim C2: the decimal `0.05`
(bits 5, precision 2, scale 2) round-trips through display and parse. -/
theorem claim_c2_amended_witness :
    parseDecimal (DecimalData.display ⟨5, ⟨2, 2⟩⟩) ⟨2, 2⟩ =
      .ok (.decimal ⟨5, ⟨2, 2⟩⟩) :=
  claim_c2_amended 5 ⟨2, 2⟩ (by norm_num) ⟨by norm_num, by norm_num⟩ rfl

/-! ## Claim C9 — characterization of `parse_decimal` -/

/-- Success characterization of `parseDecimalBase`: it yields a decimal
exactly when the base is non-empty, the effective scale is a `u8` equal
to the declared scale, and the concatenated parts parse as an `i128`
within the declared precision; the bits of a successful parse are that
concatenated integer. -/
theorem parseDecimalBase_char (raw : String) (dtype : DecimalType)
    (base : List Char) (exp : Int) :
    ((∃ d : DecimalData,
        parseDecimalBase raw dtype base exp = .ok (.decimal d)) ↔
      (base ≠ [] ∧
        0 ≤ (((decimalIntFrac base).2.length : Int) - exp) ∧
        (((decimalIntFrac base).2.length : Int) - exp) ≤ 255 ∧
        (((decimalIntFrac base).2.length : Int) - exp) =
          (dtype.scale : Int) ∧
        ∃ v : Int,
          parseI128 ((decimalIntFrac base).1 ++ (decimalIntFrac base).2) =
            some v ∧ natDigitCount v.natAbs ≤ dtype.precision)) ∧
      ∀ sc : Scalar,
        parseDecimalBase raw dtype base exp = .ok sc →
          ∃ d : DecimalData, sc = .decimal d ∧
            parseI128 ((decimalIntFrac base).1 ++
              (decimalIntFrac base).2) = some d.bits ∧ d.ty = dtype := by
  by_cases hbase : base = []
  · subst hbase
    constructor
    · constructor
      · rintro ⟨d, hd⟩
        rw [parseDecimalBase, if_pos rfl] at hd
        cases hd
      · rintro ⟨h, -⟩
        exact absurd rfl h
    · intro sc hsc
      rw [parseDecimalBase, if_pos rfl] at hsc
      cases hsc
  · have hq : (match splitOnceBy (· == '.') base with
        | none => (base, ([] : List Char))
        | some r => if r.2 = [] then (r.1, []) else r) =
        decimalIntFrac base := rfl
    have hstep : parseDecimalBase raw dtype base exp =
        (if 0 ≤ (((decimalIntFrac base).2.length : Int) - exp) ∧
            (((decimalIntFrac base).2.length : Int) - exp) ≤ 255 then
          if (((decimalIntFrac base).2.length : Int) - exp) =
              (dtype.scale : Int) then
            match parseI128 ((decimalIntFrac base).1 ++
                (decimalIntFrac base).2) with
            | some v =>
              match DecimalData.tryNew v dtype with
              | .ok d => .ok (.decimal d)
              | .error e => .error e
            | none => .error .parseIntError
          else .error (.parseError raw)
        else .error (.parseError raw)) := by
      unfold parseDecimalBase
      rw [if_neg hbase, hq]
    rw [hstep]
    by_cases h1 : 0 ≤ (((decimalIntFrac base).2.length : Int) - exp) ∧
        (((decimalIntFrac base).2.length : Int) - exp) ≤ 255
    · rw [if_pos h1]
      by_cases h2 : (((decimalIntFrac base).2.length : Int) - exp) =
          (dtype.scale : Int)
      · rw [if_pos h2]
        cases hp : parseI128 ((decimalIntFrac base).1 ++
            (decimalIntFrac base).2) with
        | none =>
          constructor
          · constructor
            · rintro ⟨d, hd⟩
              cases hd
            · rintro ⟨-, -, -, -, v, hv, -⟩
              cases hv
          · intro sc hsc
            cases hsc
        | some v =>
          by_cases h3 : dtype.precision ≥ natDigitCount v.natAbs
          · have hok : (match some v with
                | some w =>
                  match DecimalData.tryNew w dtype with
                  | Except.ok d => Except.ok (Scalar.decimal d)
                  | Except.error e => Except.error e
                | none =>
                  (Except.error KError.parseIntError :
                    Except KError Scalar)) =
                Except.ok (Scalar.decimal ⟨v, dtype⟩) := by
              show (match DecimalData.tryNew v dtype with
                | Except.ok d => Except.ok (Scalar.decimal d)
                | Except.error e => Except.error e) = _
              rw [show DecimalData.tryNew v dtype = .ok ⟨v, dtype⟩ from by
                unfold DecimalData.tryNew
                rw [if_pos h3]]
            constructor
            · constructor
              · intro _
                exact ⟨hbase, h1.1, h1.2, h2, v, rfl, h3⟩
              · intro _
                exact ⟨⟨v, dtype⟩, hok⟩
            · intro sc hsc
              obtain rfl : Scalar.decimal ⟨v, dtype⟩ = sc :=
                Except.ok.inj (hok.symm.trans hsc)
              exact ⟨⟨v, dtype⟩, rfl, rfl, rfl⟩
          · have herr : (match some v with
                | some w =>
                  match DecimalData.tryNew w dtype with
                  | Except.ok d => Except.ok (Scalar.decimal d)
                  | Except.error e => Except.error e
                | none =>
                  (Except.error KError.parseIntError :
                    Except KError Scalar)) =
                Except.error (.invalidDecimal (String.mk (intChars v))) := by
              show (match DecimalData.tryNew v dtype with
                | Except.ok d => Except.ok (Scalar.decimal d)
                | Except.error e => Except.error e) = _
              rw [show DecimalData.tryNew v dtype =
                  .error (.invalidDecimal (String.mk (intChars v))) from by
                unfold DecimalData.tryNew
                rw [if_neg h3]]
            constructor
            · constructor
              · rintro ⟨d, hd⟩
                cases herr.symm.trans hd
              · rintro ⟨-, -, -, -, v', hv', hc'⟩
                obtain rfl : v = v' := Option.some.inj hv'
                exact absurd hc' h3
            · intro sc hsc
              cases herr.symm.trans hsc
      · rw [if_neg h2]
        constructor
        · constructor
          · rintro ⟨d, hd⟩
            cases hd
          · rintro ⟨-, -, -, hsc, -⟩
            exact absurd hsc h2
        · intro sc hsc
          cases hsc
    · rw [if_neg h1]
      constructor
      · constructor
        · rintro ⟨d, hd⟩
          cases hd
        · rintro ⟨-, ha, hb', -⟩
          exact absurd ⟨ha, hb'⟩ h1
      · intro sc hsc
        cases hsc

/-- Claim C9: `parse_decimal(raw, (p, s))` succeeds exactly when `raw`
has a non-empty base, a well-formed exponent, an effective scale
`frac_digits - exp` that fits in an 8-bit unsigned integer and equals
the declared scale, and a concatenation of integer and fractional parts
parsing as an `i128` whose digit count does not exceed `p`; a
successful parse's bits equal that concatenated integer (a stray `'.'`
or sign or a second marker makes the concatenation or the exponent
unparseable, hence an error). -/
theorem claim_c9 (raw : String) (dtype : DecimalType) :
    ((∃ d : DecimalData, parseDecimal raw dtype = .ok (.decimal d)) ↔
      parseDecimalOk raw dtype) ∧
      ∀ sc : Scalar, parseDecimal raw dtype = .ok sc →
        ∃ d : DecimalData, sc = .decimal d ∧
          parseDecimalVal raw = some d.bits ∧ d.ty = dtype := by
  have hbe : decimalBaseExp raw.data =
      (match splitOnceBy isExpMarker raw.data with
       | none => (raw.data, none)
       | some q => (q.1, some q.2)) := rfl
  cases hsplit : splitOnceBy isExpMarker raw.data with
  | none =>
    have hbe' : decimalBaseExp raw.data = (raw.data, none) := by
      rw [hbe, hsplit]
    have hparse : parseDecimal raw dtype =
        parseDecimalBase raw dtype raw.data 0 := by
      unfold parseDecimal
      rw [hsplit]
    have hchar := parseDecimalBase_char raw dtype raw.data 0
    constructor
    · rw [hparse, hchar.1]
      unfold parseDecimalOk
      rw [hbe']
      constructor
      · rintro ⟨hne, h1, h2, h3, v, hv, hc⟩
        exact ⟨0, rfl, hne, h1, h2, h3, v, hv, hc⟩
      · rintro ⟨exp, hexp, hne, h1, h2, h3, v, hv, hc⟩
        obtain rfl : exp = (0 : Int) := hexp
        exact ⟨hne, h1, h2, h3, v, hv, hc⟩
    · intro sc hsc
      rw [hparse] at hsc
      obtain ⟨d, rfl, hv, hty⟩ := hchar.2 sc hsc
      refine ⟨d, rfl, ?_, hty⟩
      unfold parseDecimalVal
      rw [hbe']
      exact hv
  | some q =>
    have hbe' : decimalBaseExp raw.data = (q.1, some q.2) := by
      rw [hbe, hsplit]
    cases hexp : parseI128 q.2 with
    | none =>
      have hparse : parseDecimal raw dtype = .error .parseIntError := by
        unfold parseDecimal
        rw [hsplit]
        show (match parseI128 q.2 with
          | some e => parseDecimalBase raw dtype q.1 e
          | none =>
            (Except.error KError.parseIntError : Except KError Scalar)) = _
        rw [hexp]
      constructor
      · rw [hparse]
        constructor
        · rintro ⟨d, hd⟩
          cases hd
        · rintro ⟨exp, hexp', -⟩
          unfold parseDecimalOk at *
          rw [hbe'] at hexp'
          have hexp2 : parseI128 q.2 = some exp := hexp'
          rw [hexp] at hexp2
          cases hexp2
      · intro sc hsc
        rw [hparse] at hsc
        cases hsc
    | some e =>
      have hparse : parseDecimal raw dtype =
          parseDecimalBase raw dtype q.1 e := by
        unfold parseDecimal
        rw [hsplit]
        show (match parseI128 q.2 with
          | some e => parseDecimalBase raw dtype q.1 e
          | none =>
            (Except.error KError.parseIntError : Except KError Scalar)) = _
        rw [hexp]
      have hchar := parseDecimalBase_char raw dtype q.1 e
      constructor
      · rw [hparse, hchar.1]
        unfold parseDecimalOk
        rw [hbe']
        constructor
        · rintro ⟨hne, h1, h2, h3, v, hv, hc⟩
          exact ⟨e, hexp, hne, h1, h2, h3, v, hv, hc⟩
        · rintro ⟨exp, hexp', hne, h1, h2, h3, v, hv, hc⟩
          have hexp2 : parseI128 q.2 = some exp := hexp'
          rw [hexp] at hexp2
          obtain rfl : e = exp := Option.some.inj hexp2
          exact ⟨hne, h1, h2, h3, v, hv, hc⟩
      · intro sc hsc
        rw [hparse] at hsc
        obtain ⟨d, rfl, hv, hty⟩ := hchar.2 sc hsc
        refine ⟨d, rfl, ?_, hty⟩
        unfold parseDecimalVal
        rw [hbe']
        exact hv

/-- Concrete instance of claim C9, the spec's seed scenario:
`parse_decimal("1234.5E-4", (5, 5))` succeeds with bits `12345`. -/
theorem claim_c9_witness :
    ∃ d : DecimalData, Scalar.decimal (⟨12345, ⟨5, 5⟩⟩ : DecimalData) =
        .decimal d ∧
      parseDecimalVal "1234.5E-4" = some d.bits ∧ d.ty = ⟨5, 5⟩ :=
  (claim_c9 "1234.5E-4" ⟨5, 5⟩).2 (.decimal ⟨12345, ⟨5, 5⟩⟩) rfl

/-! ## Claims C3 and C5 — `Transaction::commit` -/

/-- The duplicate scan of commit step 0 finds nothing exactly when the
`app_id` list is duplicate-free and disjoint from the already-seen
set. -/
theorem findDupAppId_none_iff (l : List String) : ∀ seen : List String,
    (findDupAppId seen l = none ↔ l.Nodup ∧ ∀ a ∈ l, a ∉ seen) := by
  induction l with
  | nil =>
    intro seen
    constructor
    · intro _
      exact ⟨List.nodup_nil, fun a ha => absurd ha (List.not_mem_nil a)⟩
    · intro _
      rfl
  | cons a rest ih =>
    intro seen
    by_cases h : a ∈ seen
    · have hsome : findDupAppId seen (a :: rest) = some a := by
        show (if a ∈ seen then some a
          else findDupAppId (a :: seen) rest) = some a
        rw [if_pos h]
      rw [hsome]
      constructor
      · intro hc
        cases hc
      · rintro ⟨-, hall⟩
        exact absurd h (hall a (List.mem_cons_self a rest))
    · have hstep : findDupAppId seen (a :: rest) =
          findDupAppId (a :: seen) rest := by
        show (if a ∈ seen then some a
          else findDupAppId (a :: seen) rest) = _
        rw [if_neg h]
      rw [hstep, ih (a :: seen)]
      constructor
      · rintro ⟨hnd, hall⟩
        refine ⟨List.nodup_cons.mpr ⟨?_, hnd⟩, ?_⟩
        · intro hmem
          exact hall a hmem (List.mem_cons_self a seen)
        · intro b hb
          rcases List.mem_cons.mp hb with rfl | hb'
          · exact h
          · intro hbs
            exact hall b hb' (List.mem_cons.mpr (Or.inr hbs))
      · rintro ⟨hnd, hall⟩
        have hnd' := List.nodup_cons.mp hnd
        refine ⟨hnd'.2, ?_⟩
        intro b hb hbs
        rcases List.mem_cons.mp hbs with rfl | hbs'
        · exact hnd'.1 hb
        · exact hall b (List.mem_cons.mpr (Or.inr hb)) hbs'

/-- With no duplicate `app_id` and commit info present, `commit` makes
exactly one writer call — on the commit path of `version + 1`, with
`overwrite = false` — and maps the writer's outcome through step 3. -/
theorem commit_eq (t : Transaction) (writer : JsonWriter)
    (eci : EngineCommitInfo) (hci : t.commitInfo = some eci)
    (hnd : findDupAppId []
      (t.setTransactions.map SetTransaction.appId) = none) :
    t.commit writer =
      (commitResultOfWrite t (t.readSnapshot.version + 1)
        (writer
          (commitPath t.readSnapshot.tableRoot (t.readSnapshot.version + 1))
          (t.commitActions eci) false),
       [(commitPath t.readSnapshot.tableRoot (t.readSnapshot.version + 1),
         false)]) := by
  unfold Transaction.commit
  rw [hnd, hci]
  simp only []
  cases hw : writer
      (commitPath t.readSnapshot.tableRoot (t.readSnapshot.version + 1))
      (t.commitActions eci) false with
  | ok u =>
    cases u
    rfl
  | error e =>
    cases e <;> rfl

/-- Counterexample to claim C3 as stated: this transaction has commit
info set, yet `commit` never calls the JSON writer (the recorded call
list is empty) and fails on the duplicate `app_id` check instead, even
though the writer itself would have succeeded. -/
theorem claim_c3_counterexample :
    txDup.commitInfo.isSome = true ∧
      (Transaction.commit txDup alwaysOkWriter).2 = [] ∧
      (Transaction.commit txDup alwaysOkWriter).1 =
        .error (.generic "app_id app already exists in transaction") :=
  ⟨rfl, rfl, rfl⟩

/-- Claim C3 (amended): with commit info set and no duplicate `app_id`,
`commit` records exactly one writer call, on the commit path of
`read_snapshot.version + 1` with `overwrite = false`; it returns
`Committed` exactly when the write succeeds, `Conflict` with the
transaction and the attempted version exactly when the writer reports
`FileAlreadyExists`, and propagates every other writer error. -/
theorem claim_c3_amended (t : Transaction) (writer : JsonWriter)
    (eci : EngineCommitInfo) (hci : t.commitInfo = some eci)
    (hnd : (t.setTransactions.map SetTransaction.appId).Nodup) :
    (t.commit writer).2 =
      [(commitPath t.readSnapshot.tableRoot
          (t.readSnapshot.version + 1), false)] ∧
      ((t.commit writer).1 =
          .ok (.committed (t.readSnapshot.version + 1)) ↔
        writer (commitPath t.readSnapshot.tableRoot
            (t.readSnapshot.version + 1))
          (t.commitActions eci) false = .ok ()) ∧
      ((t.commit writer).1 =
          .ok (.conflict t (t.readSnapshot.version + 1)) ↔
        ∃ m, writer (commitPath t.readSnapshot.tableRoot
            (t.readSnapshot.version + 1))
          (t.commitActions eci) false = .error (.fileAlreadyExists m)) ∧
      ∀ e : KError, (∀ m, e ≠ .fileAlreadyExists m) →
        ((t.commit writer).1 = .error e ↔
          writer (commitPath t.readSnapshot.tableRoot
              (t.readSnapshot.version + 1))
            (t.commitActions eci) false = .error e) := by
  have hdup : findDupAppId []
      (t.setTransactions.map SetTransaction.appId) = none := by
    rw [findDupAppId_none_iff]
    refine ⟨hnd, ?_⟩
    intro a _ ha
    cases ha
  rw [commit_eq t writer eci hci hdup]
  cases hw : writer (commitPath t.readSnapshot.tableRoot
      (t.readSnapshot.version + 1)) (t.commitActions eci) false with
  | ok u =>
    cases u
    refine ⟨rfl, ⟨fun _ => rfl, fun _ => rfl⟩, ⟨?_, ?_⟩, ?_⟩
    · intro hh
      cases Except.ok.inj hh
    · rintro ⟨m, hm⟩
      cases hm
    · intro e' he'
      exact ⟨fun hh => (by cases hh), fun hh => (by cases hh)⟩
  | error e =>
    cases e
    case fileAlreadyExists m =>
      refine ⟨rfl, ⟨?_, ?_⟩, ⟨fun _ => ⟨m, rfl⟩, fun _ => rfl⟩, ?_⟩
      · intro hh
        cases Except.ok.inj hh
      · intro hh
        cases hh
      · intro e' he'
        constructor
        · intro hh
          cases hh
        · intro hh
          exact absurd (Except.error.inj hh).symm (he' m)
    all_goals
      refine ⟨rfl, ⟨fun hh => (by cases hh), fun hh => (by cases hh)⟩,
        ⟨fun hh => (by cases hh), ?_⟩,
        fun e' he' =>
          ⟨fun hh => congrArg Except.error (Except.error.inj hh),
           fun hh => congrArg Except.error (Except.error.inj hh)⟩⟩
      rintro ⟨m, hm⟩
      cases Except.error.inj hm

/-- Concrete instance of the amended claim C3: a clean transaction with
an always-succeeding writer records the single expected write and
commits at version 5. -/
theorem claim_c3_amended_witness :
    (Transaction.commit txOk alwaysOkWriter).2 =
      [(commitPath txOk.readSnapshot.tableRoot
          (txOk.readSnapshot.version + 1), false)] ∧
      ((Transaction.commit txOk alwaysOkWriter).1 =
          .ok (.committed (txOk.readSnapshot.version + 1)) ↔
        alwaysOkWriter (commitPath txOk.readSnapshot.tableRoot
            (txOk.readSnapshot.version + 1))
          (txOk.commitActions ⟨1, none⟩) false = .ok ()) ∧
      ((Transaction.commit txOk alwaysOkWriter).1 =
          .ok (.conflict txOk (txOk.readSnapshot.version + 1)) ↔
        ∃ m, alwaysOkWriter (commitPath txOk.readSnapshot.tableRoot
            (txOk.readSnapshot.version + 1))
          (txOk.commitActions ⟨1, none⟩) false =
            .error (.fileAlreadyExists m)) ∧
      ∀ e : KError, (∀ m, e ≠ .fileAlreadyExists m) →
        ((Transaction.commit txOk alwaysOkWriter).1 = .error e ↔
          alwaysOkWriter (commitPath txOk.readSnapshot.tableRoot
              (txOk.readSnapshot.version + 1))
            (txOk.commitActions ⟨1, none⟩) false = .error e) :=
  claim_c3_amended txOk alwaysOkWriter ⟨1, none⟩ rfl (by decide)

/-- Claim C5: a duplicated `app_id` makes `commit` fail with the
descriptive generic error before any writer call (the recorded call
list is empty), while `with_transaction_id` performs no validation and
simply appends the new `SetTransaction`. -/
theorem claim_c5 (t : Transaction) (writer : JsonWriter)
    (h : ¬ (t.setTransactions.map SetTransaction.appId).Nodup) :
    (∃ a : String,
        t.commit writer =
          (.error (.generic
            ("app_id " ++ a ++ " already exists in transaction")), [])) ∧
      ∀ (appId : String) (v : Int),
        (t.withTransactionId appId v).setTransactions =
          t.setTransactions ++ [⟨appId, v, some t.commitTimestamp⟩] := by
  cases hf : findDupAppId []
      (t.setTransactions.map SetTransaction.appId) with
  | none =>
    exact absurd ((findDupAppId_none_iff _ []).mp hf).1 h
  | some a =>
    refine ⟨⟨a, ?_⟩, fun _ _ => rfl⟩
    unfold Transaction.commit
    rw [hf]

/-- Concrete instance of claim C5: the duplicated transaction fails
with the descriptive error and records no writer call, and
`with_transaction_id` still appends blindly. -/
theorem claim_c5_witness :
    (∃ a : String,
        Transaction.commit txDup alwaysOkWriter =
          (.error (.generic
            ("app_id " ++ a ++ " already exists in transaction")), [])) ∧
      ∀ (appId : String) (v : Int),
        (txDup.withTransactionId appId v).setTransactions =
          txDup.setTransactions ++
            [⟨appId, v, some txDup.commitTimestamp⟩] :=
  claim_c5 txDup alwaysOkWriter (by decide)

/-! ## Claim C4 — CDF selection-vector splitting -/

/-- `split_vector` threading agrees with the claim's prefix-and-pad
description, batch by batch. -/
theorem readScanFileAux_eq_expected (pad : Bool) (lens : List Nat) :
    ∀ sv : Option (List Bool),
      readScanFileAux (some pad) sv lens = expectedMasks pad sv lens := by
  induction lens with
  | nil =>
    intro sv
    cases sv <;> rfl
  | cons len rest ih =>
    intro sv
    cases sv with
    | none =>
      have h1 : readScanFileAux (some pad) none (len :: rest) =
          none :: readScanFileAux (some pad) none rest := rfl
      rw [h1, ih none]
      rfl
    | some v =>
      have hcons : ∀ (r1 r2 : Option (List Bool)),
          splitVector (some v) len (some pad) = (r1, r2) →
          readScanFileAux (some pad) (some v) (len :: rest) =
            r1 :: readScanFileAux (some pad) r2 rest := by
        intro r1 r2 hr
        show (splitVector (some v) len (some pad)).1 ::
            readScanFileAux (some pad)
              (splitVector (some v) len (some pad)).2 rest = _
        rw [hr]
      have hexp : expectedMasks pad (some v) (len :: rest) =
          some ((v ++ List.replicate (len - v.length) pad).take len) ::
            expectedMasks pad
              (if len < v.length then some (v.drop len) else none)
              rest := rfl
      rcases Nat.lt_trichotomy len v.length with hlt | heq | hgt
      · have hs : splitVector (some v) len (some pad) =
            (some (v.take len), some (v.drop len)) := by
          show (if len < v.length then
              (some (v.take len), some (v.drop len))
            else if v.length < len then
              (some (v ++ List.replicate (len - v.length) pad), none)
            else (some v, none)) = _
          rw [if_pos hlt]
        rw [hcons _ _ hs, ih, hexp, if_pos hlt,
          Nat.sub_eq_zero_of_le hlt.le, List.replicate_zero,
          List.append_nil]
      · have hs : splitVector (some v) len (some pad) =
            (some v, none) := by
          show (if len < v.length then
              (some (v.take len), some (v.drop len))
            else if v.length < len then
              (some (v ++ List.replicate (len - v.length) pad), none)
            else (some v, none)) = _
          rw [if_neg (by omega), if_neg (by omega)]
        rw [hcons _ _ hs, ih, hexp, if_neg (by omega), heq,
          Nat.sub_self, List.replicate_zero, List.append_nil,
          List.take_length]
      · have hs : splitVector (some v) len (some pad) =
            (some (v ++ List.replicate (len - v.length) pad), none) := by
          show (if len < v.length then
              (some (v.take len), some (v.drop len))
            else if v.length < len then
              (some (v ++ List.replicate (len - v.length) pad), none)
            else (some v, none)) = _
          rw [if_neg (by omega), if_pos hgt]
        rw [hcons _ _ hs, ih, hexp, if_neg (by omega),
          List.take_of_length_le (by
            rw [List.length_append, List.length_replicate]
            omega)]

/-- With no selection vector, the claimed mask sequence is `none` for
every batch. -/
theorem expectedMasks_none (pad : Bool) : ∀ lens : List Nat,
    expectedMasks pad none lens = lens.map fun _ => none := by
  intro lens
  induction lens with
  | nil => rfl
  | cons len rest ih =>
    show (none : Option (List Bool)) :: expectedMasks pad none rest = _
    rw [ih]
    rfl

/-- Claim C4: in `read_scan_file`, each batch's mask is the `len`-prefix
of the remaining selection vector, padded — when it runs short — with
`false` for a resolved add/remove pair (`remove_dv` present) and with
`true` otherwise; with no selection vector every batch's mask is
`none`. -/
theorem claim_c4 (rsf : ResolvedCdfScanFile) (lens : List Nat) :
    readScanFileMasks rsf lens =
      expectedMasks (!rsf.scanFile.removeDv.isSome)
        rsf.selectionVector lens ∧
      readScanFileMasks ⟨rsf.scanFile, none⟩ lens =
        lens.map fun _ => none := by
  constructor
  · exact readScanFileAux_eq_expected (!rsf.scanFile.removeDv.isSome)
      lens rsf.selectionVector
  · have h0 : readScanFileMasks ⟨rsf.scanFile, none⟩ lens =
        readScanFileAux (some (!rsf.scanFile.removeDv.isSome))
          none lens := rfl
    rw [h0, readScanFileAux_eq_expected, expectedMasks_none]

end DeltaKernel
